import Mathlib

/-!
Verification of the resilient multi-provider API gateway of the
`bw-seo-research` keyword-research application.

The development shallowly embeds the relevant TypeScript code:

* the tolerant JSON extractor of `GeminiClient.makeLLMRequest`
  (`src/unnamed/part_003`, lines 699-852), including the
  non-quote-aware balanced-bracket scan `findBalancedJSON` and the
  quote/escape-aware object salvage scan;
* the `KeywordProvider` cascade of
  `src/src/integrations/firecrawl-scraper.ts` (`getKeywordMetrics`,
  `getBulkKeywordMetrics`, the DataForSEO/Ahrefs normalizers and the
  mock-data generator);
* the cache-key (request fingerprint) constructions of
  `GeminiClient.expandToDream100`, `AhrefsClient.getKeywordMetrics`
  and `DataForSEOClient.getKeywordData`;
* the request lifecycle of `GeminiClient.makeLLMRequest` (cache check,
  rate-limiter admission, metrics accounting) as an explicit state
  machine, with the network call supplied as an oracle.

JavaScript numbers that the claims depend on are exact decimals here
(a mantissa/exponent pair over ℤ), so every definition is executable
and kernel-reducible.  Nondeterminism (`Math.random()`) is made
explicit as a stream of decimal values.
-/

/-- Exact decimal number `m * 10 ^ e`, standing in for the JavaScript
floating-point numbers the claims mention (all numeric literals in the
relevant code are decimal, so this representation is exact for them). -/
structure Dec where
  m : Int
  e : Int
  deriving DecidableEq, Repr

namespace Dec

/-- Mantissa of `a` rescaled to exponent `e'`; meaningful when `e' ≤ a.e`. -/
def scaleTo (a : Dec) (e' : Int) : Int :=
  a.m * (10 : Int) ^ (a.e - e').toNat

def add (a b : Dec) : Dec :=
  let e := min a.e b.e
  ⟨a.scaleTo e + b.scaleTo e, e⟩

def mul (a b : Dec) : Dec :=
  ⟨a.m * b.m, a.e + b.e⟩

def leB (a b : Dec) : Bool :=
  let e := min a.e b.e
  a.scaleTo e ≤ b.scaleTo e

def ltB (a b : Dec) : Bool :=
  let e := min a.e b.e
  a.scaleTo e < b.scaleTo e

/-- `Math.floor` on an exact decimal (floor division for negative values). -/
def floor (a : Dec) : Int :=
  if 0 ≤ a.e then a.m * (10 : Int) ^ a.e.toNat
  else Int.fdiv a.m ((10 : Int) ^ (-a.e).toNat)

/-- `Math.round` of JavaScript: `⌊x + 1/2⌋` (rounds halves toward +∞). -/
def jsRound (a : Dec) : Int :=
  floor (add a ⟨5, -1⟩)

def ofInt (n : Int) : Dec := ⟨n, 0⟩

def minD (a b : Dec) : Dec := if leB a b then a else b

end Dec

/-- JSON values as produced by `JSON.parse`.  Numbers keep their exact
decimal value. -/
inductive JsonValue where
  | null
  | bool (b : Bool)
  | num (v : Dec)
  | str (s : String)
  | arr (elems : List JsonValue)
  | obj (fields : List (String × JsonValue))
  deriving Repr

mutual

def JsonValue.beq : JsonValue → JsonValue → Bool
  | .null, .null => true
  | .bool a, .bool b => a = b
  | .num a, .num b => a = b
  | .str a, .str b => a = b
  | .arr a, .arr b => JsonValue.beqList a b
  | .obj a, .obj b => JsonValue.beqFields a b
  | _, _ => false

def JsonValue.beqList : List JsonValue → List JsonValue → Bool
  | [], [] => true
  | a :: as, b :: bs => JsonValue.beq a b && JsonValue.beqList as bs
  | _, _ => false

def JsonValue.beqFields : List (String × JsonValue) → List (String × JsonValue) → Bool
  | [], [] => true
  | (ka, va) :: as, (kb, vb) :: bs =>
      ka = kb && JsonValue.beq va vb && JsonValue.beqFields as bs
  | _, _ => false

end

mutual

theorem JsonValue.beq_iff : ∀ a b : JsonValue, JsonValue.beq a b = true ↔ a = b
  | .null, .null => by simp [JsonValue.beq]
  | .null, .bool _ | .null, .num _ | .null, .str _ | .null, .arr _ | .null, .obj _ =>
      by simp [JsonValue.beq]
  | .bool _, .null | .bool _, .num _ | .bool _, .str _ | .bool _, .arr _ | .bool _, .obj _ =>
      by simp [JsonValue.beq]
  | .bool a, .bool b => by simp [JsonValue.beq]
  | .num _, .null | .num _, .bool _ | .num _, .str _ | .num _, .arr _ | .num _, .obj _ =>
      by simp [JsonValue.beq]
  | .num a, .num b => by simp [JsonValue.beq]
  | .str _, .null | .str _, .bool _ | .str _, .num _ | .str _, .arr _ | .str _, .obj _ =>
      by simp [JsonValue.beq]
  | .str a, .str b => by simp [JsonValue.beq]
  | .arr _, .null | .arr _, .bool _ | .arr _, .num _ | .arr _, .str _ | .arr _, .obj _ =>
      by simp [JsonValue.beq]
  | .arr a, .arr b => by simp [JsonValue.beq, JsonValue.beqList_iff a b]
  | .obj _, .null | .obj _, .bool _ | .obj _, .num _ | .obj _, .str _ | .obj _, .arr _ =>
      by simp [JsonValue.beq]
  | .obj a, .obj b => by simp [JsonValue.beq, JsonValue.beqFields_iff a b]

theorem JsonValue.beqList_iff : ∀ a b : List JsonValue, JsonValue.beqList a b = true ↔ a = b
  | [], [] => by simp [JsonValue.beqList]
  | [], _ :: _ => by simp [JsonValue.beqList]
  | _ :: _, [] => by simp [JsonValue.beqList]
  | a :: as, b :: bs => by
      simp [JsonValue.beqList, JsonValue.beq_iff a b, JsonValue.beqList_iff as bs]

theorem JsonValue.beqFields_iff :
    ∀ a b : List (String × JsonValue), JsonValue.beqFields a b = true ↔ a = b
  | [], [] => by simp [JsonValue.beqFields]
  | [], _ :: _ => by simp [JsonValue.beqFields]
  | _ :: _, [] => by simp [JsonValue.beqFields]
  | (ka, va) :: as, (kb, vb) :: bs => by
      simp only [JsonValue.beqFields, Bool.and_eq_true, decide_eq_true_eq,
        JsonValue.beq_iff va vb, JsonValue.beqFields_iff as bs, List.cons.injEq,
        Prod.mk.injEq]

end

instance : DecidableEq JsonValue := fun a b =>
  decidable_of_iff (JsonValue.beq a b = true) (JsonValue.beq_iff a b)

/-- JavaScript truthiness of a defined value. -/
def jsTruthy : JsonValue → Bool
  | .null => false
  | .bool b => b
  | .num v => v.m ≠ 0
  | .str s => s ≠ ""
  | .arr _ => true
  | .obj _ => true

/-- Property access `v[k]`: `none` models JavaScript `undefined`.
`JSON.parse` keeps the last of duplicate keys, hence the reversed search. -/
def objGet (v : JsonValue) (k : String) : Option JsonValue :=
  match v with
  | .obj fs => (fs.reverse.find? (fun p => p.1 = k)).map (·.2)
  | _ => none

/-- Property access collapsing `undefined` to `null` (the `?? null` idiom). -/
def objGetD (v : JsonValue) (k : String) : JsonValue :=
  (objGet v k).getD .null

/-- Truthiness of a possibly-`undefined` value. -/
def jsTruthyOpt (o : Option JsonValue) : Bool :=
  (o.map jsTruthy).getD false

/-- Non-nullish projection: `some` exactly when the value is neither
`undefined` nor `null` (the guard of `?.` and `??`). -/
def nonNullish (o : Option JsonValue) : Option JsonValue :=
  match o with
  | some .null => none
  | none => none
  | some v => some v

/-- JavaScript `a || b` on values. -/
def jsOr (a b : JsonValue) : JsonValue :=
  if jsTruthy a then a else b

/-- The whitespace accepted by `JSON.parse` (RFC 8259). -/
def isJsonWs (c : Char) : Bool :=
  c = ' ' || c = '\t' || c = '\n' || c = '\r'

/-- Core of the whitespace class of JavaScript `\s` and `String.trim`
(the ASCII part; the exotic Unicode spaces never occur in the inputs
considered here). -/
def isJsWs (c : Char) : Bool :=
  isJsonWs c || c = '\x0b' || c = '\x0c'

def skipWs (cs : List Char) : List Char :=
  cs.dropWhile isJsonWs

def isHexDigit (c : Char) : Bool :=
  c.isDigit || ('a' ≤ c && c ≤ 'f') || ('A' ≤ c && c ≤ 'F')

def hexVal (c : Char) : Nat :=
  if c.isDigit then c.toNat - 48
  else if 'a' ≤ c && c ≤ 'f' then c.toNat - 87
  else c.toNat - 55

/-- Body of a JSON string after the opening quote: returns the decoded
characters and the remainder after the closing quote.  Mirrors the
grammar enforced by `JSON.parse` (escapes, no raw control characters).
Surrogate pairing of consecutive `\u` escapes is not reconstructed; the
inputs considered here never use it. -/
def parseStringAux : List Char → List Char → Option (List Char × List Char)
  | _, [] => none
  | acc, c :: rest =>
      if c = '"' then some (acc.reverse, rest)
      else if c = '\\' then
        match rest with
        | [] => none
        | e :: rest2 =>
            if e = 'u' then
              match rest2 with
              | h1 :: h2 :: h3 :: h4 :: rest3 =>
                  if isHexDigit h1 && isHexDigit h2 && isHexDigit h3
                      && isHexDigit h4 then
                    let code := ((hexVal h1 * 16 + hexVal h2) * 16 + hexVal h3)
                        * 16 + hexVal h4
                    parseStringAux (Char.ofNat code :: acc) rest3
                  else none
              | _ => none
            else if e = '"' then parseStringAux ('"' :: acc) rest2
            else if e = '\\' then parseStringAux ('\\' :: acc) rest2
            else if e = '/' then parseStringAux ('/' :: acc) rest2
            else if e = 'b' then parseStringAux ('\x08' :: acc) rest2
            else if e = 'f' then parseStringAux ('\x0c' :: acc) rest2
            else if e = 'n' then parseStringAux ('\n' :: acc) rest2
            else if e = 'r' then parseStringAux ('\r' :: acc) rest2
            else if e = 't' then parseStringAux ('\t' :: acc) rest2
            else none
      else if c.toNat < 32 then none
      else parseStringAux (c :: acc) rest

def digitsToNat (ds : List Char) : Nat :=
  ds.foldl (fun a c => a * 10 + (c.toNat - 48)) 0

/-- Fractional part `.digits` of a JSON number; `some ([], cs)` when absent. -/
def parseFrac (cs : List Char) : Option (List Char × List Char) :=
  match cs with
  | '.' :: r =>
      let p := r.span Char.isDigit
      if p.1 = [] then none else some (p.1, p.2)
  | _ => some ([], cs)

/-- Optional sign of an exponent: the sign factor and the remainder. -/
def expSign : List Char → Int × List Char
  | '-' :: tl => (-1, tl)
  | '+' :: tl => (1, tl)
  | other => (1, other)

/-- Exponent part `[eE][+-]?digits` of a JSON number; `some (0, cs)` when
absent. -/
def parseExp (cs : List Char) : Option (Int × List Char) :=
  match cs with
  | c :: r =>
      if c = 'e' || c = 'E' then
        let sr := expSign r
        let p := sr.2.span Char.isDigit
        if p.1 = [] then none else some (sr.1 * (digitsToNat p.1 : Int), p.2)
      else some (0, cs)
  | [] => some (0, cs)

/-- A JSON number token, per the grammar enforced by `JSON.parse`
(no leading `+`, no leading zeros, mandatory digits around `.`). -/
def parseNumber (cs : List Char) : Option (Dec × List Char) :=
  let (neg, cs1) : Bool × List Char :=
    match cs with
    | '-' :: r => (true, r)
    | _ => (false, cs)
  match cs1 with
  | [] => none
  | c :: _ =>
    if c.isDigit then
      let p := cs1.span Char.isDigit
      if p.1.head? = some '0' ∧ p.1.length > 1 then none
      else
        match parseFrac p.2 with
        | none => none
        | some (fds, cs3) =>
          match parseExp cs3 with
          | none => none
          | some (ex, cs4) =>
              let mag : Int := (digitsToNat (p.1 ++ fds) : Int)
              some (⟨if neg then -mag else mag, ex - fds.length⟩, cs4)
    else none

mutual

/-- `JSON.parse` value parser (fuel bounds the nesting/iteration depth). -/
def parseValue : Nat → List Char → Option (JsonValue × List Char)
  | 0, _ => none
  | fuel + 1, cs =>
    match skipWs cs with
    | [] => none
    | c :: rest =>
      if c = '"' then
        (parseStringAux [] rest).map (fun p => (.str (String.mk p.1), p.2))
      else if c = '[' then
        match skipWs rest with
        | ']' :: r2 => some (.arr [], r2)
        | _ => parseElems fuel rest []
      else if c = '{' then
        match skipWs rest with
        | '}' :: r2 => some (.obj [], r2)
        | _ => parseFields fuel rest []
      else if c = 't' then
        match rest with
        | 'r' :: 'u' :: 'e' :: r => some (.bool true, r)
        | _ => none
      else if c = 'f' then
        match rest with
        | 'a' :: 'l' :: 's' :: 'e' :: r => some (.bool false, r)
        | _ => none
      else if c = 'n' then
        match rest with
        | 'u' :: 'l' :: 'l' :: r => some (.null, r)
        | _ => none
      else
        (parseNumber (c :: rest)).map (fun p => (.num p.1, p.2))

/-- Elements of a non-empty JSON array after `[`. -/
def parseElems : Nat → List Char → List JsonValue → Option (JsonValue × List Char)
  | 0, _, _ => none
  | fuel + 1, cs, acc =>
    match parseValue fuel cs with
    | none => none
    | some (v, r) =>
      match skipWs r with
      | ',' :: r2 => parseElems fuel r2 (v :: acc)
      | ']' :: r2 => some (.arr (v :: acc).reverse, r2)
      | _ => none

/-- Members of a non-empty JSON object after `{`. -/
def parseFields : Nat → List Char → List (String × JsonValue) →
    Option (JsonValue × List Char)
  | 0, _, _ => none
  | fuel + 1, cs, acc =>
    match skipWs cs with
    | '"' :: r =>
      match parseStringAux [] r with
      | none => none
      | some (k, r2) =>
        match skipWs r2 with
        | ':' :: r3 =>
          match parseValue fuel r3 with
          | none => none
          | some (v, r4) =>
            match skipWs r4 with
            | ',' :: r5 => parseFields fuel r5 ((String.mk k, v) :: acc)
            | '}' :: r5 => some (.obj ((String.mk k, v) :: acc).reverse, r5)
            | _ => none
        | _ => none
    | _ => none

end

/-- `JSON.parse`: a full parse of the string, tolerating only surrounding
whitespace.  The fuel `2 * length + 2` dominates the recursion depth
(each unit of nesting or iteration consumes input). -/
def jsonParse (s : String) : Option JsonValue :=
  match parseValue (2 * s.length + 2) s.data with
  | some (v, rest) => if (skipWs rest).isEmpty then some v else none
  | none => none

/-!  The tolerant JSON extractor of `GeminiClient.makeLLMRequest`
(`src/unnamed/part_003`, lines 699-852). -/

/-- The regex `/```(?:json)?\s*([\s\S]*)/` of line 704: capture everything
after the first ` ``` ` fence, an optional literal `json` tag, and
whitespace; `none` when no fence occurs. -/
def fenceSplit? : List Char → Option (List Char)
  | [] => none
  | c :: cs =>
      if c = '`' ∧ cs.take 2 = ['`', '`'] then
        let rest := cs.drop 2
        let rest1 :=
          if rest.take 4 = ['j', 's', 'o', 'n'] then rest.drop 4 else rest
        some (rest1.dropWhile isJsWs)
      else fenceSplit? cs

/-- `.replace(/```\s*$/, '')` of line 707: cut at the leftmost ` ``` ` that
is followed only by whitespace up to the end. -/
def stripEndFence : List Char → List Char
  | [] => []
  | c :: cs =>
      if c = '`' ∧ cs.take 2 = ['`', '`'] ∧ (cs.drop 2).all isJsWs then []
      else c :: stripEndFence cs

/-- `String.trim` of JavaScript (ASCII whitespace; see `isJsWs`). -/
def jsTrim (cs : List Char) : List Char :=
  ((cs.dropWhile isJsWs).reverse.dropWhile isJsWs).reverse

/-- Loop body of `findBalancedJSON` (lines 718-745): a raw bracket count
with no quoted-string awareness.  `i` is the current index, `depth` the
JavaScript `depth` variable, `startIdx` its `startIdx` (with `none` for
`-1`), `full` the whole scanned text. -/
def fbjGo (startChar endChar : Char) (full : List Char) (allowIncomplete : Bool) :
    List Char → Nat → Int → Option Nat → Option (List Char)
  | [], _, depth, startIdx =>
      match startIdx with
      | some k =>
          if allowIncomplete ∧ depth > 0 then
            some (full.drop k ++ List.replicate depth.toNat endChar)
          else none
      | none => none
  | c :: cs, i, depth, startIdx =>
      if c = startChar then
        fbjGo startChar endChar full allowIncomplete cs (i + 1) (depth + 1)
          (if depth = 0 then some i else startIdx)
      else if c = endChar then
        if depth - 1 = 0 then
          match startIdx with
          | some k => some ((full.drop k).take (i + 1 - k))
          | none => fbjGo startChar endChar full allowIncomplete cs (i + 1) (depth - 1) none
        else fbjGo startChar endChar full allowIncomplete cs (i + 1) (depth - 1) startIdx
      else fbjGo startChar endChar full allowIncomplete cs (i + 1) depth startIdx

/-- `findBalancedJSON(str, startChar, endChar, allowIncomplete)` of
lines 718-745. -/
def findBalancedJSON (s : String) (startChar endChar : Char)
    (allowIncomplete : Bool) : Option String :=
  (fbjGo startChar endChar s.data allowIncomplete s.data 0 0 none).map String.mk

/-- State of the object-salvage scan of lines 764-814: the current object
accumulator (reversed), the JavaScript `braceDepth`, the `inString` and
`escapeNext` flags, and the completed `objectMatches` (reversed). -/
structure SalvageState where
  cur : List Char
  depth : Int
  inString : Bool
  escapeNext : Bool
  acc : List String

def salvageInit : SalvageState := ⟨[], 0, false, false, []⟩

/-- One character of the object-salvage scan (loop body, lines 770-814). -/
def salvageStep (st : SalvageState) (c : Char) : SalvageState :=
  if st.escapeNext then { st with cur := c :: st.cur, escapeNext := false }
  else if c = '\\' then { st with cur := c :: st.cur, escapeNext := true }
  else if c = '"' then { st with cur := c :: st.cur, inString := !st.inString }
  else if !st.inString then
    if c = '\x7b' then
      if st.depth = 0 then { st with cur := [c], depth := st.depth + 1 }
      else { st with cur := c :: st.cur, depth := st.depth + 1 }
    else if c = '\x7d' then
      let cur' := c :: st.cur
      if st.depth - 1 = 0 then
        { st with cur := [], depth := st.depth - 1,
                  acc := String.mk cur'.reverse :: st.acc }
      else { st with cur := cur', depth := st.depth - 1 }
    else if st.depth > 0 then { st with cur := c :: st.cur }
    else st
  else { st with cur := c :: st.cur }

/-- The `objectMatches` produced by scanning a whole string. -/
def salvageRun (cs : List Char) : List String :=
  ((cs.foldl salvageStep salvageInit).acc).reverse

/-- The parse section of `GeminiClient.makeLLMRequest` (lines 699-852):
fence stripping, direct `JSON.parse`, balanced-bracket extraction,
object salvage with the non-empty-`keyword` filter, and the raw-text
fallback of the surrounding `catch` blocks. -/
def extractParsedData (text : String) : JsonValue :=
  let jsonText : String :=
    match fenceSplit? text.data with
    | some cap => String.mk (jsTrim (stripEndFence cap))
    | none => String.mk (jsTrim text.data)
  match jsonParse jsonText with
  | some v => v
  | none =>
    match
      (match findBalancedJSON text '[' ']' false with
       | some a => some a
       | none => findBalancedJSON text '[' ']' true) with
    | some jsonArray =>
        match jsonParse jsonArray with
        | some v => v
        | none =>
            let ms := salvageRun jsonArray.data
            if ms.isEmpty then .str text
            else
              let objs := ms.filterMap (fun m =>
                (jsonParse m).bind (fun o =>
                  if jsTruthyOpt (objGet o "keyword") then some o else none))
              if objs.isEmpty then .str text else .arr objs
    | none =>
        match findBalancedJSON text '\x7b' '\x7d' false with
        | some jo =>
            match jsonParse jo with
            | some v => v
            | none => .str text
        | none => .str text

/-!  Request fingerprints (cache keys).  JavaScript `Array.sort()` with the
default comparator sorts strings lexicographically; the order is modelled
on the character code points (identical on the inputs at hand). -/

/-- Lexicographic comparison of character lists by code point. -/
def lexLe : List Char → List Char → Bool
  | a :: as, b :: bs =>
      if a.toNat < b.toNat then true
      else if b.toNat < a.toNat then false
      else lexLe as bs
  | [], _ => true
  | _ :: _, [] => false

/-- The default-comparator string order of `Array.sort()`. -/
def strLeP (a b : String) : Prop := lexLe a.data b.data = true

instance : DecidableRel strLeP := fun a b => by
  unfold strLeP; infer_instance

theorem lexLe_total : ∀ a b : List Char, lexLe a b = true ∨ lexLe b a = true
  | [], _ => Or.inl rfl
  | _ :: _, [] => Or.inr rfl
  | a :: as, b :: bs => by
      by_cases hab : a.toNat < b.toNat
      · exact Or.inl (by simp [lexLe, hab])
      · by_cases hba : b.toNat < a.toNat
        · exact Or.inr (by simp [lexLe, hba])
        · rcases lexLe_total as bs with h | h
          · exact Or.inl (by simp [lexLe, hab, hba, h])
          · exact Or.inr (by simp [lexLe, hab, hba, h])

theorem lexLe_antisymm : ∀ a b : List Char,
    lexLe a b = true → lexLe b a = true → a = b
  | [], [], _, _ => rfl
  | [], _ :: _, _, h => by simp [lexLe] at h
  | _ :: _, [], h, _ => by simp [lexLe] at h
  | a :: as, b :: bs, h1, h2 => by
      by_cases hab : a.toNat < b.toNat
      · simp [lexLe, hab, Nat.lt_asymm hab] at h2
      · by_cases hba : b.toNat < a.toNat
        · simp [lexLe, hab, hba] at h1
        · have hc : a = b := Char.eq_of_val_eq (by
            apply UInt32.toBitVec_injective
            apply BitVec.eq_of_toNat_eq
            exact Nat.le_antisymm (Nat.le_of_not_lt hba) (Nat.le_of_not_lt hab))
          simp only [lexLe, hab, hba, if_false, if_neg hab, if_neg hba] at h1 h2
          rw [hc, lexLe_antisymm as bs h1 h2]

theorem lexLe_trans : ∀ a b c : List Char,
    lexLe a b = true → lexLe b c = true → lexLe a c = true
  | [], _, _, _, _ => rfl
  | _ :: _, [], _, h, _ => by simp [lexLe] at h
  | _ :: _, _ :: _, [], _, h => by simp [lexLe] at h
  | a :: as, b :: bs, c :: cs, h1, h2 => by
      by_cases hab : a.toNat < b.toNat <;> by_cases hbc : b.toNat < c.toNat
      · simp [lexLe, Nat.lt_trans hab hbc]
      · have hcb : c.toNat ≤ b.toNat := Nat.le_of_not_lt hbc
        simp only [lexLe, hbc, if_neg hbc] at h2
        by_cases hcb' : c.toNat < b.toNat
        · simp [hcb'] at h2
        · have : b.toNat = c.toNat := Nat.le_antisymm (Nat.le_of_not_lt hcb') hcb
          simp [lexLe, this ▸ hab]
      · have hba : b.toNat ≤ a.toNat := Nat.le_of_not_lt hab
        simp only [lexLe, hab, if_neg hab] at h1
        by_cases hba' : b.toNat < a.toNat
        · simp [hba'] at h1
        · have : a.toNat = b.toNat := Nat.le_antisymm (Nat.le_of_not_lt hba') hba
          simp [lexLe, this ▸ hbc]
      · simp only [lexLe, hab, if_neg hab] at h1
        by_cases hba' : b.toNat < a.toNat
        · simp [hba'] at h1
        · simp only [lexLe, hbc, if_neg hbc] at h2
          by_cases hcb' : c.toNat < b.toNat
          · simp [hcb'] at h2
          · have hac : ¬ a.toNat < c.toNat ∧ ¬ c.toNat < a.toNat := by
              have h1' : a.toNat = b.toNat :=
                Nat.le_antisymm (Nat.le_of_not_lt hba') (Nat.le_of_not_lt hab)
              have h2' : b.toNat = c.toNat :=
                Nat.le_antisymm (Nat.le_of_not_lt hcb') (Nat.le_of_not_lt hbc)
              omega
            simp only [hba', if_neg hba'] at h1
            simp only [hcb', if_neg hcb'] at h2
            simp [lexLe, hac.1, hac.2, lexLe_trans as bs cs h1 h2]

instance : IsTotal String strLeP :=
  ⟨fun a b => lexLe_total a.data b.data⟩

instance : IsTrans String strLeP :=
  ⟨fun a b c => lexLe_trans a.data b.data c.data⟩

instance : IsAntisymm String strLeP :=
  ⟨fun a b h1 h2 => by
    cases a; cases b
    exact congrArg String.mk (lexLe_antisymm _ _ h1 h2)⟩

/-- `keywords.sort()` of JavaScript. -/
def sortStrings (l : List String) : List String :=
  List.insertionSort strLeP l

/-- Cache key of `GeminiClient.expandToDream100` (`src/unnamed/part_003`,
line 513): `expansion:${target_count}:${intent_focus}:${seed_keywords.sort().join(',')}`.
An absent `intent_focus` stringifies to `"undefined"` in the template. -/
def geminiExpansionCacheKey (target_count : Nat) (intent_focus : Option String)
    (seed_keywords : List String) : String :=
  "expansion:" ++ toString target_count ++ ":" ++ intent_focus.getD "undefined"
    ++ ":" ++ String.intercalate "," (sortStrings seed_keywords)

/-- Cache key of `AhrefsClient.getKeywordMetrics` (`src/unnamed/part_004`,
line 343): `kw:metrics:${country}:${keywords.sort().join(',')}`. -/
def ahrefsMetricsCacheKey (country : String) (keywords : List String) : String :=
  "kw:metrics:" ++ country ++ ":" ++ String.intercalate "," (sortStrings keywords)

/-- Cache key of one batch of `DataForSEOClient.getKeywordData`
(`src/src/integrations/firecrawl-scraper.ts`, line 736):
`dfs:labs:bulk:${location}:${language}:${batch.slice(0,3).join(',').substring(0,50)}` —
note: the batch is NOT sorted. -/
def dfsBulkCacheKey (location : Nat) (language : String)
    (batch : List String) : String :=
  "dfs:labs:bulk:" ++ toString location ++ ":" ++ language ++ ":"
    ++ (String.intercalate "," (batch.take 3)).take 50

/-!  The unified keyword provider of
`src/src/integrations/firecrawl-scraper.ts` (lines 1117-1582). -/

/-- The `source` discriminator of `UnifiedKeywordData`. -/
inductive KPSource where
  | dataforseo
  | ahrefs
  | mock
  | unavailable
  deriving DecidableEq, Repr

/-- `UnifiedKeywordData` (lines 1131-1140).  The nullable numeric fields
keep their JSON value (`JsonValue.null` for TypeScript `null`). -/
structure UnifiedKeywordData where
  keyword : String
  volume : JsonValue
  difficulty : JsonValue
  cpc : JsonValue
  competition : JsonValue
  trend : JsonValue
  source : KPSource
  confidence : Dec
  deriving DecidableEq, Repr

/-- Rendering of a number in a JavaScript template literal.  Exact for
integers (the only values interpolated by the code under study); for
fractional values the full digit expansion is produced without
trailing-zero trimming. -/
def jsNumToString (d : Dec) : String :=
  if 0 ≤ d.e then toString (d.m * (10 : Int) ^ d.e.toNat)
  else
    let k := (-d.e).toNat
    let p := (10 : Int) ^ k
    let sgn := if d.m < 0 then "-" else ""
    let a := d.m.natAbs
    let digits := (toString (a % p.natAbs)).data
    sgn ++ toString (a / p.natAbs) ++ "."
      ++ String.mk (List.replicate (k - digits.length) '0' ++ digits)

/-- Rendering of a defined JSON value in a template literal. -/
def jsTemplateStr : JsonValue → String
  | .null => "null"
  | .bool b => if b then "true" else "false"
  | .num d => jsNumToString d
  | .str s => s
  | .arr _ => ""
  | .obj _ => "[object Object]"

/-- Template rendering of a possibly-`undefined` value. -/
def jsTemplateOpt (o : Option JsonValue) : String :=
  match o with
  | some v => jsTemplateStr v
  | none => "undefined"

/-- `String(x).padStart(2, '0')`. -/
def padStart2 (s : String) : String :=
  if s.length < 2 then String.mk (List.replicate (2 - s.length) '0') ++ s else s

/-- One point of the DataForSEO trend mapping (lines 1500-1503):
`{ month: `${m.year}-${String(m.month).padStart(2,'0')}`, volume: m.search_volume }`. -/
def dfsTrendPoint (m : JsonValue) : JsonValue :=
  .obj [("month", .str (jsTemplateOpt (objGet m "year") ++ "-"
            ++ padStart2 (jsTemplateOpt (objGet m "month")))),
        ("volume", objGetD m "search_volume")]

/-- `normalizeDataForSEOData` (lines 1490-1507).  Non-numeric values in
numeric positions (which would be `NaN` in JavaScript) are modelled as
`null`; they never occur in the claims' inputs. -/
def normalizeDataForSEOData (rawData : JsonValue) : UnifiedKeywordData :=
  let keywordInfo := jsOr (objGetD rawData "keyword_info") rawData
  { keyword :=
      match objGetD rawData "keyword" with
      | .str s => s
      | _ => ""
    volume := objGetD keywordInfo "search_volume"
    difficulty :=
      match nonNullish (objGet rawData "keyword_properties") with
      | some kp => objGetD kp "keyword_difficulty"
      | none => .null
    cpc := objGetD keywordInfo "cpc"
    competition :=
      match nonNullish (objGet keywordInfo "competition") with
      | some (.num d) => .num ⟨Dec.jsRound (d.mul ⟨100, 0⟩), 0⟩
      | some _ => .null
      | none => .null
    trend :=
      match nonNullish (objGet keywordInfo "monthly_searches") with
      | some (.arr xs) => .arr (xs.map dfsTrendPoint)
      | _ => .null
    source := .dataforseo
    confidence := ⟨95, -2⟩ }

/-- `normalizeAhrefsData` (lines 1512-1524). -/
def normalizeAhrefsData (rawData : JsonValue) : UnifiedKeywordData :=
  { keyword :=
      match objGetD rawData "keyword" with
      | .str s => s
      | _ => ""
    volume :=
      match nonNullish (objGet rawData "volume") with
      | some v => v
      | none => objGetD rawData "search_volume"
    difficulty :=
      match nonNullish (objGet rawData "difficulty") with
      | some v => v
      | none => objGetD rawData "keyword_difficulty"
    cpc := objGetD rawData "cpc"
    competition :=
      let tp := objGetD rawData "traffic_potential"
      if jsTruthy tp then
        match tp with
        | .num d => .num (Dec.minD ((d.mul ⟨1, -3⟩).mul ⟨100, 0⟩) ⟨100, 0⟩)
        | _ => .null
      else .null
    trend :=
      let t := objGetD rawData "trend"
      if jsTruthy t then t else .null
    source := .ahrefs
    confidence := ⟨9, -1⟩ }

/-- Explicit stream of `Math.random()` results. -/
structure Rng where
  seq : Nat → Dec
  idx : Nat

def Rng.next (r : Rng) : Dec × Rng :=
  (r.seq r.idx, ⟨r.seq, r.idx + 1⟩)

def mockMonths : List String :=
  ["Jan", "Feb", "Mar", "Apr", "May", "Jun",
   "Jul", "Aug", "Sep", "Oct", "Nov", "Dec"]

/-- Per-month loop of `generateMockTrend`: each point consumes one random. -/
def mockTrendPoints (base : Dec) : List String → Rng → List JsonValue × Rng
  | [], r => ([], r)
  | mo :: ms, r =>
      let (x, r1) := r.next
      let v := Dec.floor (Dec.add base ((Dec.add x ⟨-5, -1⟩).mul ⟨1000, 0⟩))
      let (rest, r2) := mockTrendPoints base ms r1
      (.obj [("month", .str mo), ("volume", .num ⟨v, 0⟩)] :: rest, r2)

/-- `generateMockTrend` (lines 1573-1582). -/
def generateMockTrend (r : Rng) : JsonValue × Rng :=
  let (b, r1) := r.next
  let base := Dec.add ⟨1000, 0⟩ (b.mul ⟨5000, 0⟩)
  let (pts, r2) := mockTrendPoints base mockMonths r1
  (.arr pts, r2)

/-- `getMockKeywordData` (lines 1529-1543).  `keyword.length` is the
code-point count (identical to the JavaScript UTF-16 length on the
inputs at hand). -/
def getMockKeywordData (keyword : String) (r : Rng) : UnifiedKeywordData × Rng :=
  let (x0, r1) := r.next
  let baseVolume := Dec.add ⟨(keyword.length : Int) * 1000, 0⟩ (x0.mul ⟨5000, 0⟩)
  let (x1, r2) := r1.next
  let difficulty := Dec.floor (x1.mul ⟨100, 0⟩)
  let (x2, r3) := r2.next
  let cpc : Dec := ⟨Dec.jsRound ((Dec.add (x2.mul ⟨5, 0⟩) ⟨5, -1⟩).mul ⟨100, 0⟩), -2⟩
  let (x3, r4) := r3.next
  let competition := Dec.floor (x3.mul ⟨100, 0⟩)
  let (trend, r5) := generateMockTrend r4
  ({ keyword := keyword
     volume := .num ⟨Dec.floor baseVolume, 0⟩
     difficulty := .num ⟨difficulty, 0⟩
     cpc := .num cpc
     competition := .num ⟨competition, 0⟩
     trend := trend
     source := .mock
     confidence := ⟨5, -1⟩ }, r5)

/-- `keywords.map(k => this.getMockKeywordData(k))`, threading the
random stream left to right. -/
def mockAll : List String → Rng → List UnifiedKeywordData
  | [], _ => []
  | k :: ks, r =>
      let (u, r1) := getMockKeywordData k r
      u :: mockAll ks r1

/-- Shape of a provider bulk call result: `success` flag and optional
rows (`none` models a nullish `data` field). -/
structure ApiResultL where
  success : Bool
  data : Option (List JsonValue)

/-- Shape of a provider single-item call result. -/
structure ApiResult1 where
  success : Bool
  data : Option JsonValue

/-- The explicit `source="unavailable"` record of lines 1312-1321. -/
def mkUnavailable (k : String) : UnifiedKeywordData :=
  { keyword := k, volume := .null, difficulty := .null, cpc := .null,
    competition := .null, trend := .null, source := .unavailable,
    confidence := ⟨0, 0⟩ }

/-- `toLowerCase()` as used by the partial-batch diff (ASCII case
mapping; the keywords at hand have no exotic Unicode case pairs). -/
def jsToLower (s : String) : String :=
  String.mk (s.data.map Char.toLower)

/-- The Ahrefs branch and final mock fallback of `getBulkKeywordMetrics`
(lines 1330-1348).  `Option (Except Unit ApiResultL)` models: no client
configured (`none`), the call throwing (`some (.error ())`), or the call
returning (`some (.ok r)`). -/
def ahrefsBulkFallback (ahrefs : Option (Except Unit ApiResultL))
    (keywords : List String) (rng : Rng) : List UnifiedKeywordData :=
  match ahrefs with
  | some (.ok res) =>
      if res.success then
        match res.data with
        | some rows => rows.map normalizeAhrefsData
        | none => mockAll keywords rng
      else mockAll keywords rng
  | _ => mockAll keywords rng

/-- `KeywordProvider.getBulkKeywordMetrics` (lines 1275-1349). -/
def getBulkKeywordMetrics (mockMode : Bool)
    (dfs ahrefs : Option (Except Unit ApiResultL))
    (keywords : List String) (rng : Rng) : List UnifiedKeywordData :=
  if mockMode || keywords.isEmpty then mockAll keywords rng
  else
    match dfs with
    | some (.ok res) =>
        if res.success then
          match res.data with
          | some rows =>
              let enriched := rows.map normalizeDataForSEOData
              let enrichedKeys := enriched.map (fun u => jsToLower u.keyword)
              let missing :=
                keywords.filter (fun k => !(enrichedKeys.contains (jsToLower k)))
              enriched ++ missing.map mkUnavailable
          | none => ahrefsBulkFallback ahrefs keywords rng
        else ahrefsBulkFallback ahrefs keywords rng
    | _ => ahrefsBulkFallback ahrefs keywords rng

/-- `KeywordProvider.getKeywordMetrics` (lines 1231-1269). -/
def getKeywordMetrics (mockMode : Bool)
    (dfs : Option (Except Unit ApiResultL))
    (ahrefsOv : Option (Except Unit ApiResult1))
    (keyword : String) (rng : Rng) : UnifiedKeywordData :=
  let fallback : UnifiedKeywordData :=
    match ahrefsOv with
    | some (.ok res) =>
        if res.success then
          match res.data with
          | some v =>
              if jsTruthy v then normalizeAhrefsData v
              else (getMockKeywordData keyword rng).1
          | none => (getMockKeywordData keyword rng).1
        else (getMockKeywordData keyword rng).1
    | _ => (getMockKeywordData keyword rng).1
  if mockMode then (getMockKeywordData keyword rng).1
  else
    match dfs with
    | some (.ok res) =>
        if res.success then
          match res.data with
          | some (row0 :: _) =>
              if jsTruthy row0 then normalizeDataForSEOData row0 else fallback
          | _ => fallback
        else fallback
    | _ => fallback

/-!  The `GeminiClient` request lifecycle (`src/unnamed/part_003`,
lines 497-949) as an explicit state machine.  The rate limiter and the
retry policy live in `src/utils/rate-limiter.ts` and
`src/utils/error-handler.ts`, which are not part of the repository
snapshot; they are modelled from the spec where noted. -/

/-- `UsageMetrics` of a provider client (`this.metrics`). -/
structure UsageMetrics where
  requests : Nat
  successes : Nat
  failures : Nat
  rateLimitHits : Nat
  circuitBreakerTrips : Nat
  totalCost : Dec
  lastRequest : Int
  avgResponseTime : Dec
  deriving DecidableEq, Repr

/-- `AnthropicUsage` attached to an LLM response. -/
structure LLMUsage where
  input_tokens : Nat
  output_tokens : Nat
  model : String
  cost_estimate : Dec
  request_id : String
  deriving DecidableEq, Repr

/-- `AnthropicResponse<T>` with the payload as a JSON value. -/
structure LLMResponse where
  data : JsonValue
  usage : LLMUsage
  model : String
  finish_reason : String
  request_id : String
  processing_time : Int
  deriving DecidableEq, Repr

/-- An entry of the LLM cache as written by `setLLMCache` (line 943):
`{ data, timestamp, ttl }`. -/
structure LLMCacheEntry where
  data : LLMResponse
  timestamp : Int
  ttl : Int
  deriving DecidableEq, Repr

/-- Modelled from the spec (§3, §4.1): token-bucket configuration
`capacity`, `refillRate`, `refillPeriod` (the rate-limiter source file
is not in the snapshot).  All three are integers, as in the client
configurations visible in the source. -/
structure RateLimiterConfig where
  capacity : Int
  refillRate : Int
  refillPeriod : Int
  deriving DecidableEq, Repr

/-- Rate-limiter state.  `tokensScaled` stores the token count scaled by
`refillPeriod`, so the spec's lazy-refill formula
`tokens = min(capacity, tokens + elapsed/refillPeriod * refillRate)`
is exact integer arithmetic. -/
structure RateLimiterState where
  tokensScaled : Int
  lastRefillTime : Int
  deriving DecidableEq, Repr

/-- Modelled from the spec (§4.1): `tryConsume(cost=1)` with lazy refill
at consumption time; returns the admission decision and the new state. -/
def tryConsume (cfg : RateLimiterConfig) (st : RateLimiterState) (now : Int)
    (cost : Int := 1) : Bool × RateLimiterState :=
  let refilled : Int :=
    min (cfg.capacity * cfg.refillPeriod)
      (st.tokensScaled + (now - st.lastRefillTime) * cfg.refillRate)
  if cost * cfg.refillPeriod ≤ refilled then
    (true, ⟨refilled - cost * cfg.refillPeriod, now⟩)
  else
    (false, ⟨refilled, now⟩)

/-- Modelled from the spec (§4.1): `getNextRefillTime()` of the token
bucket — the end of the refill period that started at the last refill. -/
def getNextRefillTime (cfg : RateLimiterConfig) (st : RateLimiterState) : Int :=
  st.lastRefillTime + cfg.refillPeriod

/-- Modelled from the spec (§4.1): `getRemainingTokens()` — the whole
tokens currently in the bucket. -/
def getRemainingTokens (cfg : RateLimiterConfig) (st : RateLimiterState) : Int :=
  Int.fdiv st.tokensScaled cfg.refillPeriod

/-- `Math.ceil(a / b)` for integers (`b > 0`). -/
def iceilDiv (a b : Int) : Int :=
  -(Int.fdiv (-a) b)

/-- Full mutable state owned by the client: LLM cache (a JavaScript
`Map` as an association list in insertion order), rate-limiter state and
usage metrics. -/
structure GeminiState where
  cache : List (String × LLMCacheEntry)
  rl : RateLimiterState
  metrics : UsageMetrics
  deriving DecidableEq, Repr

/-- The typed errors thrown by `makeLLMRequest` and the validation
guards. -/
structure LLMError where
  message : String
  code : Option String
  statusCode : Option Nat
  retryable : Bool
  retryAfter : Option Int
  deriving DecidableEq, Repr

/-- `getLLMCache` (lines 935-941): a hit requires presence and
`Date.now() < timestamp + ttl`. -/
def getLLMCache (cache : List (String × LLMCacheEntry)) (key : String)
    (now : Int) : Option LLMResponse :=
  match (cache.find? (fun p => p.1 = key)).map (·.2) with
  | some e => if now < e.timestamp + e.ttl then some e.data else none
  | none => none

/-- `Map.set`: overwrite in place, append when absent. -/
def mapSet (cache : List (String × LLMCacheEntry)) (key : String)
    (e : LLMCacheEntry) : List (String × LLMCacheEntry) :=
  if cache.any (fun p => p.1 = key) then
    cache.map (fun p => if p.1 = key then (key, e) else p)
  else cache ++ [(key, e)]

/-- `setLLMCache` (lines 943-949) with the configured TTL. -/
def setLLMCache (cache : List (String × LLMCacheEntry)) (key : String)
    (resp : LLMResponse) (now ttl : Int) : List (String × LLMCacheEntry) :=
  mapSet cache key ⟨resp, now, ttl⟩

/-- `updateLLMMetrics` (lines 951-966); `avgResponseTime` is the
exponential moving average with `alpha = 0.1`. -/
def updateLLMMetrics (m : UsageMetrics) (success : Bool)
    (responseTime : Int) (cost : Dec) (now : Int) : UsageMetrics :=
  { m with
    requests := m.requests + 1
    lastRequest := now
    totalCost := Dec.add m.totalCost cost
    successes := if success then m.successes + 1 else m.successes
    failures := if success then m.failures else m.failures + 1
    avgResponseTime :=
      Dec.add (m.avgResponseTime.mul ⟨9, -1⟩) ((⟨responseTime, 0⟩ : Dec).mul ⟨1, -1⟩) }

/-- Outcome of the network call (the `circuitBreaker.execute` oracle):
the response text with the optional SDK usage metadata and finish
reason, or a thrown error. -/
structure NetResponse where
  text : String
  usageTokens : Option (Nat × Nat)
  finishReason : Option String
  finishMessage : Bool
  deriving DecidableEq, Repr

structure NetError where
  message : String
  circuitBreaker : Bool
  deriving DecidableEq, Repr

/-- `calculateCost` (lines 927-929) with the Gemini 1.5 Pro per-token
rates `0.000000125` and `0.0000005`. -/
def calculateCost (inputTokens outputTokens : Nat) : Dec :=
  Dec.add ((⟨(inputTokens : Int), 0⟩ : Dec).mul ⟨125, -9⟩)
    ((⟨(outputTokens : Int), 0⟩ : Dec).mul ⟨5, -7⟩)

def DEFAULT_GEMINI_MODEL : String := "gemini-1.5-pro"

/-- `GeminiClient.makeLLMRequest` (lines 619-925) as one state
transition at instant `now`: cache check, rate-limiter admission, then
the network oracle; the third component records whether the network
operation was handed to the circuit breaker.  `ridSuffix` stands for
the random request-id suffix, `cacheTtl` for `config.cache.ttl`. -/
def makeLLMRequest (cfg : RateLimiterConfig) (st : GeminiState) (now : Int)
    (promptLen : Nat) (cacheKey : Option String) (cacheTtl : Int)
    (ridSuffix : String) (net : Except NetError NetResponse) :
    Except LLMError LLMResponse × GeminiState × Bool :=
  let onMiss : Except LLMError LLMResponse × GeminiState × Bool :=
    let (ok, rl') := tryConsume cfg st.rl now 1
    if !ok then
      let st' : GeminiState :=
        { st with rl := rl',
                  metrics := { st.metrics with
                    rateLimitHits := st.metrics.rateLimitHits + 1 } }
      (.error
        { message := "Rate limit exceeded"
          code := some "RATE_LIMIT_ERROR"
          statusCode := some 429
          retryable := true
          retryAfter := some (iceilDiv (getNextRefillTime cfg rl' - now) 1000) },
        st', false)
    else
      match net with
      | .ok resp =>
          let parsedData := extractParsedData resp.text
          let (inputTokens, outputTokens) : Nat × Nat :=
            match resp.usageTokens with
            | some p => p
            | none => ((promptLen + 3) / 4, (resp.text.length + 3) / 4)
          let cost := calculateCost inputTokens outputTokens
          let usage : LLMUsage :=
            { input_tokens := inputTokens
              output_tokens := outputTokens
              model := DEFAULT_GEMINI_MODEL
              cost_estimate := cost
              request_id := "gemini_" ++ toString now ++ "_" ++ ridSuffix }
          let finishReason :=
            match resp.finishReason with
            | some f => f
            | none => if resp.finishMessage then "stop" else "complete"
          let result : LLMResponse :=
            { data := parsedData
              usage := usage
              model := DEFAULT_GEMINI_MODEL
              finish_reason := finishReason
              request_id := usage.request_id
              processing_time := 0 }
          let cache' :=
            match cacheKey with
            | some k => setLLMCache st.cache k result now cacheTtl
            | none => st.cache
          (.ok result,
           { st with rl := rl', cache := cache',
                     metrics := updateLLMMetrics st.metrics true 0 cost now },
           true)
      | .error ne =>
          let m1 :=
            if ne.circuitBreaker then
              { st.metrics with
                circuitBreakerTrips := st.metrics.circuitBreakerTrips + 1 }
            else st.metrics
          (.error
            { message := ne.message, code := none, statusCode := none,
              retryable := false, retryAfter := none },
           { st with rl := rl',
                     metrics := updateLLMMetrics m1 false 0 ⟨0, 0⟩ now },
           true)
  match cacheKey with
  | some k =>
      match getLLMCache st.cache k now with
      | some cached =>
          (.ok
            { data := cached.data
              usage := cached.usage
              model := cached.model
              finish_reason := "cached"
              request_id := "cached_" ++ toString now
              processing_time := 0 },
           st, false)
      | none => onMiss
  | none => onMiss

/-- Modelled from the spec (§4.3): `RetryHandler.withRetry` — up to
`maxAttempts` attempts, re-attempting only on a retryable error
(`src/utils/error-handler.ts` is not in the snapshot).  `nets` supplies
one network outcome per attempt. -/
def withRetry (attempt :
      GeminiState → Except NetError NetResponse →
        Except LLMError LLMResponse × GeminiState × Bool) :
    Nat → GeminiState → List (Except NetError NetResponse) →
    Except LLMError LLMResponse × GeminiState × Bool
  | 0, st, _ =>
      (.error { message := "Retry attempts exhausted", code := none,
                statusCode := none, retryable := false, retryAfter := none },
       st, false)
  | _ + 1, st, [] =>
      (.error { message := "Retry attempts exhausted", code := none,
                statusCode := none, retryable := false, retryAfter := none },
       st, false)
  | n + 1, st, net :: nets =>
      match attempt st net with
      | (.ok v, st', nc) => (.ok v, st', nc)
      | (.error e, st', nc) =>
          if e.retryable && n > 0 then withRetry attempt n st' nets
          else (.error e, st', nc)

/-- `AnthropicKeywordExpansion` request shape. -/
structure ExpansionRequest where
  seed_keywords : List String
  target_count : Nat
  industry : Option String
  intent_focus : Option String

/-- The validation error thrown by the guards of `expandToDream100` and
`classifyIntent` (a plain `new Error(message)`). -/
def plainError (msg : String) : LLMError :=
  { message := msg, code := none, statusCode := none,
    retryable := false, retryAfter := none }

/-- `GeminiClient.expandToDream100` (lines 500-547): the two validation
guards, the fingerprint, then `RetryHandler.withRetry` (2 attempts)
around `makeLLMRequest`. -/
def expandToDream100 (cfg : RateLimiterConfig) (req : ExpansionRequest)
    (st : GeminiState) (now : Int) (promptLen : Nat) (cacheTtl : Int)
    (ridSuffix : String) (nets : List (Except NetError NetResponse)) :
    Except LLMError LLMResponse × GeminiState × Bool :=
  if req.seed_keywords.length = 0 then
    (.error (plainError "At least one seed keyword is required"), st, false)
  else if req.target_count > 150 then
    (.error (plainError
      "Maximum 150 keywords per expansion to maintain quality and avoid token limits"),
     st, false)
  else
    let cacheKey :=
      geminiExpansionCacheKey req.target_count req.intent_focus req.seed_keywords
    withRetry
      (fun s net =>
        makeLLMRequest cfg s now promptLen (some cacheKey) cacheTtl ridSuffix net)
      2 st nets

/-- `AnthropicIntentClassification` request shape; `contextJson` stands
for the serialized `JSON.stringify(context || {})`. -/
structure IntentRequest where
  keywords : List String
  contextJson : String

/-- `GeminiClient.classifyIntent` (lines 552-583): the two validation
guards, the fingerprint, then a single `makeLLMRequest`. -/
def classifyIntent (cfg : RateLimiterConfig) (req : IntentRequest)
    (st : GeminiState) (now : Int) (promptLen : Nat) (cacheTtl : Int)
    (ridSuffix : String) (net : Except NetError NetResponse) :
    Except LLMError LLMResponse × GeminiState × Bool :=
  if req.keywords.length = 0 then
    (.error (plainError "At least one keyword is required"), st, false)
  else if req.keywords.length > 500 then
    (.error (plainError "Maximum 500 keywords per classification request"), st, false)
  else
    let cacheKey :=
      "intent:" ++ String.intercalate "," (sortStrings req.keywords)
        ++ ":" ++ req.contextJson
    makeLLMRequest cfg st now promptLen (some cacheKey) cacheTtl ridSuffix net

/-!  A family of model outputs consisting of a JSON array truncated
mid-object, used to state the tolerant-extractor claims: a run of
complete `{"keyword":"…"}` objects followed by an object cut off inside
its string value. -/

/-- Characters allowed in the keyword values of the family: anything
except a quote, a backslash, square brackets, a backtick or a control
character (so the value neither ends the JSON string early nor disturbs
the non-quote-aware array scan or the fence regex). -/
def goodKwChar (c : Char) : Bool :=
  !(c = '"') && !(c = '\\') && !(c = '[') && !(c = ']') && !(c = '`')
    && decide (32 ≤ c.toNat)

/-- `{"keyword":"<kw>"}` (as emitted by the model). -/
def encKw (kw : String) : String :=
  "\x7b\"keyword\":\"" ++ kw ++ "\"\x7d"

/-- The parsed value of one complete object of the family. -/
def kwObj (kw : String) : JsonValue :=
  .obj [("keyword", .str kw)]

/-- The complete objects joined with commas. -/
def encJoin : List String → List Char
  | [] => []
  | [k] => (encKw k).data
  | k :: ks => (encKw k).data ++ ',' :: encJoin ks

/-- The dangling tail: a final object truncated inside its string value,
`,{"keyword":"`. -/
def truncTailChars : List Char :=
  (",\x7b\"keyword\":\"").data

/-- The whole truncated model output
`[{"keyword":"k1"},…,{"keyword":"kn"},{"keyword":"`. -/
def truncInput (objs : List String) : String :=
  String.mk ('[' :: encJoin objs ++ truncTailChars)

/-!  Concrete inputs used in the counterexamples and witnesses below. -/

/-- A concrete random stream (every `Math.random()` call returns 0). -/
def rng0 : Rng := ⟨fun _ => ⟨0, 0⟩, 0⟩

/-- A concrete Ahrefs row for the keyword `seo tools`. -/
def ahRow : JsonValue :=
  .obj [("keyword", .str "seo tools"), ("volume", .num ⟨100, 0⟩)]

/-- A concrete DataForSEO row for the keyword `seo tools`. -/
def dfsRow : JsonValue :=
  .obj [("keyword", .str "seo tools"),
        ("keyword_info", .obj [("search_volume", .num ⟨1000, 0⟩),
                               ("cpc", .num ⟨25, -1⟩),
                               ("competition", .num ⟨45, -2⟩)])]

/-- Scenario C of the spec: a fenced JSON array followed by trailing
prose. -/
def scenarioCText : String :=
  "```json\n[" ++
    "\x7b\"keyword\":\"a\",\"intent\":\"commercial\",\"relevance_score\":0.8\x7d"
    ++ "]\n``` thanks!"

/-- A JSON array truncated mid-object whose first complete object
contains a `]` inside its string value. -/
def bracketInStringText : String :=
  "[\x7b\"keyword\":\"a]b\"\x7d,\x7b\"keyword\":\"c\"\x7d,\x7b\"tru"

/-- The two complete objects preceding the truncation point of
`bracketInStringText`. -/
def bracketInStringObjs : List JsonValue :=
  [.obj [("keyword", .str "a]b")], .obj [("keyword", .str "c")]]

/-- The ways the DataForSEO branch of `getBulkKeywordMetrics` can fail
to deliver rows: no client configured, the call throwing, `success`
false, or a nullish `data`. -/
def dfsNoData : Option (Except Unit ApiResultL) → Prop
  | none => True
  | some (.error _) => True
  | some (.ok r) => r.success = false ∨ r.data = none

/-- The `UnifiedKeywordData` invariant of the spec: an `unavailable`
record carries no fabricated values, and every confidence lies in
`[0, 1]`. -/
def kpInvariant (r : UnifiedKeywordData) : Prop :=
  (r.source = .unavailable →
    r.volume = .null ∧ r.difficulty = .null ∧ r.cpc = .null ∧
      r.competition = .null ∧ r.trend = .null ∧ r.confidence = ⟨0, 0⟩) ∧
  Dec.leB ⟨0, 0⟩ r.confidence = true ∧ Dec.leB r.confidence ⟨1, 0⟩ = true

/-- The truncated final object of the family, `{"keyword":"`. -/
def tObjChars : List Char := ("\x7b\"keyword\":\"").data

/-- The family body as consumed by the element loop: each complete
object followed by a comma, then the dangling tail. -/
def bodyB : List String → List Char → List Char
  | [], t0 => t0
  | k :: ks, t0 => (encKw k).data ++ ',' :: bodyB ks t0

/-!  Theorems. -/

/-- Any two permutations of a keyword list sort to the same list, so
`sort().join(',')` fingerprints are order-insensitive. -/
theorem sortStrings_perm_eq {l1 l2 : List String} (h : l1.Perm l2) :
    sortStrings l1 = sortStrings l2 :=
  List.eq_of_perm_of_sorted
    ((List.perm_insertionSort _ l1).trans (h.trans (List.perm_insertionSort _ l2).symm))
    (List.sorted_insertionSort _ l1) (List.sorted_insertionSort _ l2)

set_option maxRecDepth 8192 in
/-- C4.  The claim is false for `DataForSEOClient.getKeywordData`: its
cache key is built from the first three keywords in request order
(`batch.slice(0,3).join(',')`, line 736), so the keyword sets
`["a","b"]` and `["b","a"]` — permutations of each other — get the
distinct fingerprints `dfs:labs:bulk:2840:en:a,b` and
`dfs:labs:bulk:2840:en:b,a`. -/
theorem claim_C4_counterexample :
    List.Perm ["a", "b"] ["b", "a"] ∧
      dfsBulkCacheKey 2840 "en" ["a", "b"] ≠ dfsBulkCacheKey 2840 "en" ["b", "a"] := by
  decide

/-- C4 (amended).  For every permutation of the keyword list, the cache
keys of `GeminiClient.expandToDream100` and
`AhrefsClient.getKeywordMetrics` are identical (both sort the keywords
before joining); `DataForSEOClient.getKeywordData` does not share this
property. -/
theorem claim_C4_amended (tc : Nat) (intf : Option String) (country : String)
    {l1 l2 : List String} (h : l1.Perm l2) :
    geminiExpansionCacheKey tc intf l1 = geminiExpansionCacheKey tc intf l2 ∧
      ahrefsMetricsCacheKey country l1 = ahrefsMetricsCacheKey country l2 := by
  constructor <;>
    simp [geminiExpansionCacheKey, ahrefsMetricsCacheKey, sortStrings_perm_eq h]

set_option maxRecDepth 8192 in
theorem claim_C4_witness :
    geminiExpansionCacheKey 100 (some "mixed") ["seo tools", "content marketing"]
        = geminiExpansionCacheKey 100 (some "mixed") ["content marketing", "seo tools"] ∧
      ahrefsMetricsCacheKey "US" ["seo tools", "content marketing"]
        = ahrefsMetricsCacheKey "US" ["content marketing", "seo tools"] :=
  claim_C4_amended 100 (some "mixed") "US" (by decide)

/-- C6.  The claim is false at array granularity: `findBalancedJSON`
(lines 718-745) counts brackets with no quoted-string awareness, so on
the perfectly balanced array `["]"]` the `]` inside the string value
drops the tracked depth to zero and the scan returns the non-JSON
prefix `["]` instead of the balanced substring. -/
theorem claim_C6_counterexample :
    findBalancedJSON "[\"]\"]" '[' ']' false = some "[\"]" ∧
      jsonParse "[\"]\"]" = some (.arr [.str "]"]) ∧
      jsonParse "[\"]" = none := by
  decide

/-- C6 (amended).  The object-granularity salvage scan (lines 764-814)
does respect quoted-string and escape context: while `inString` is set,
no character — in particular no brace — changes the tracked depth, and
an escaped character never toggles `inString`; the array-granularity
scan `findBalancedJSON` has no such protection. -/
theorem claim_C6_amended (st : SalvageState) (c : Char) :
    (st.inString = true → (salvageStep st c).depth = st.depth) ∧
      (st.escapeNext = true →
        (salvageStep st c).depth = st.depth ∧
          (salvageStep st c).inString = st.inString) := by
  constructor
  · intro h
    unfold salvageStep
    split_ifs <;> simp_all
  · intro h
    unfold salvageStep
    simp [h]

theorem claim_C6_witness :
    (salvageStep ⟨[], 1, true, false, []⟩ '\x7d').depth = (1 : Int) ∧
      (salvageStep ⟨[], 1, true, true, []⟩ '"').inString = true :=
  ⟨(claim_C6_amended ⟨[], 1, true, false, []⟩ '\x7d').1 rfl,
   ((claim_C6_amended ⟨[], 1, true, true, []⟩ '"').2 rfl).2⟩

/-- C7.  Scenario C: the fenced-and-prose-wrapped model output
` ```json\n[{"keyword":"a","intent":"commercial","relevance_score":0.8}]\n``` thanks!`
extracts to exactly one parsed object whose `keyword` is `"a"`. -/
theorem claim_C7 :
    extractParsedData scenarioCText =
      .arr [.obj [("keyword", .str "a"), ("intent", .str "commercial"),
                  ("relevance_score", .num ⟨8, -1⟩)]] ∧
      ∃ o, extractParsedData scenarioCText = .arr [o] ∧
           objGet o "keyword" = some (.str "a") :=
  ⟨by decide,
   .obj [("keyword", .str "a"), ("intent", .str "commercial"),
         ("relevance_score", .num ⟨8, -1⟩)],
   by decide, by decide⟩

/-- C1.  The claim is false as stated: with DataForSEO configured and
queried but throwing (and no Ahrefs client), `getBulkKeywordMetrics`
falls through to the final mock fallback (line 1348) and every returned
record carries the fabricated `source = "mock"`. -/
theorem claim_C1_counterexample :
    (getBulkKeywordMetrics false (some (.error ())) none
        ["seo tools", "content marketing"] rng0).map (·.source)
      = [.mock, .mock] := by
  decide

/-- C1 (amended).  When a queried provider call succeeds (`success` and
non-nullish `data`), no returned record carries `source = "mock"`: under
a successful DataForSEO call every record's source is `dataforseo` or
`unavailable`, and when DataForSEO yields nothing and the Ahrefs call
succeeds every record's source is `ahrefs`.  Only when every configured
provider fails entirely does the code fall back to mock records. -/
theorem claim_C1_amended (keywords : List String) (rng : Rng) :
    (∀ (rows : List JsonValue) (ah : Option (Except Unit ApiResultL))
        (r : UnifiedKeywordData),
      r ∈ getBulkKeywordMetrics false (some (.ok ⟨true, some rows⟩)) ah
            keywords rng →
      r.source = .dataforseo ∨ r.source = .unavailable) ∧
    (∀ (d : Option (Except Unit ApiResultL)) (rows' : List JsonValue)
        (r : UnifiedKeywordData),
      dfsNoData d →
      r ∈ getBulkKeywordMetrics false d (some (.ok ⟨true, some rows'⟩))
            keywords rng →
      r.source = .ahrefs) := by
  constructor
  · intro rows ah r hr
    by_cases hk : keywords.isEmpty
    · simp [getBulkKeywordMetrics, hk, List.isEmpty_iff.mp hk, mockAll] at hr
    · simp only [getBulkKeywordMetrics, Bool.false_or, hk, if_false,
        Bool.false_eq_true, ite_false] at hr
      rcases List.mem_append.mp hr with h | h
      · rcases List.mem_map.mp h with ⟨x, _, rfl⟩
        exact Or.inl rfl
      · rcases List.mem_map.mp h with ⟨x, _, rfl⟩
        exact Or.inr rfl
  · intro d rows' r hd hr
    have key : ∀ rg, r ∈ ahrefsBulkFallback (some (.ok ⟨true, some rows'⟩))
        keywords rg → r.source = .ahrefs := by
      intro rg hmem
      simp only [ahrefsBulkFallback, ite_true] at hmem
      rcases List.mem_map.mp hmem with ⟨x, _, rfl⟩
      exact rfl
    by_cases hk : keywords.isEmpty
    · rw [List.isEmpty_iff.mp hk] at hr
      simp [getBulkKeywordMetrics, mockAll] at hr
    · match d, hd with
      | none, _ =>
          simp only [getBulkKeywordMetrics, Bool.false_or, hk, if_false,
            Bool.false_eq_true, ite_false] at hr
          exact key rng hr
      | some (.error u), _ =>
          simp only [getBulkKeywordMetrics, Bool.false_or, hk, if_false,
            Bool.false_eq_true, ite_false] at hr
          exact key rng hr
      | some (.ok res), hd =>
          rcases hd with hs | hn
          · simp only [getBulkKeywordMetrics, Bool.false_or, hk, if_false,
              Bool.false_eq_true, ite_false, hs] at hr
            exact key rng hr
          · simp only [getBulkKeywordMetrics, Bool.false_or, hk, if_false,
              Bool.false_eq_true, ite_false, hn] at hr
            split at hr
            · exact key rng hr
            · exact key rng hr

theorem claim_C1_witness :
    (normalizeDataForSEOData dfsRow).source = .dataforseo ∨
      (normalizeDataForSEOData dfsRow).source = .unavailable :=
  (claim_C1_amended ["seo tools"] rng0).1 [dfsRow] none
    (normalizeDataForSEOData dfsRow) (by decide)


/-- Splitting a list by a predicate preserves length. -/
theorem length_filter_split {α : Type} (p : α → Bool) (l : List α) :
    (l.filter p).length + (l.filter (fun a => !p a)).length = l.length := by
  induction l with
  | nil => rfl
  | cons a l ih =>
      by_cases h : p a = true <;> simp [List.filter, h] <;> omega

/-- Counting lemma for the partial-batch diff: if the matched keys `S`
are distinct and all drawn from the (distinct) lowered request keys,
then exactly `S.length` requested keywords pass the `contains` test. -/
theorem length_filter_contains (keywords : List String) (S : List String)
    (hS : S.Nodup) (hK : (keywords.map jsToLower).Nodup)
    (hsub : ∀ s ∈ S, s ∈ keywords.map jsToLower) :
    (keywords.filter (fun k => S.contains (jsToLower k))).length = S.length := by
  classical
  have hmapfil :
      (keywords.map jsToLower).filter (fun s => S.contains s)
        = (keywords.filter (fun k => S.contains (jsToLower k))).map jsToLower := by
    rw [List.filter_map]
    rfl
  have hlen :
      (keywords.filter (fun k => S.contains (jsToLower k))).length
        = ((keywords.map jsToLower).filter (fun s => S.contains s)).length := by
    rw [hmapfil, List.length_map]
  rw [hlen]
  have hfn : ((keywords.map jsToLower).filter (fun s => S.contains s)).Nodup :=
    hK.filter _
  have htf :
      ((keywords.map jsToLower).filter (fun s => S.contains s)).toFinset
        = S.toFinset := by
    ext x
    simp only [List.mem_toFinset, List.mem_filter, List.elem_iff]
    exact ⟨fun h => h.2, fun h => ⟨hsub x h, h⟩⟩
  calc ((keywords.map jsToLower).filter (fun s => S.contains s)).length
      = ((keywords.map jsToLower).filter (fun s => S.contains s)).toFinset.card :=
        (List.toFinset_card_of_nodup hfn).symm
    _ = S.toFinset.card := by rw [htf]
    _ = S.length := List.toFinset_card_of_nodup hS

/-- C2.  The second half of the claim is false: when the cascade falls
through to Ahrefs and Ahrefs returns data for only one of the two
requested keywords, `getBulkKeywordMetrics` returns one record, not
two — the Ahrefs branch (lines 1330-1345) performs no partial-batch
diff. -/
theorem claim_C2_counterexample :
    (getBulkKeywordMetrics false (some (.error ()))
        (some (.ok ⟨true, some [ahRow]⟩)) ["seo tools", "content marketing"]
        rng0).length = 1 ∧
      (["seo tools", "content marketing"] : List String).length = 2 := by
  decide

/-- C2 (amended).  The 1:1 cardinality and the matched/unavailable
record shapes hold for the DataForSEO branch (under the claim's
"subset" reading: the matched keys are distinct requested keywords);
the Ahrefs fall-through branch returns exactly the records Ahrefs
provides, with no `unavailable` fill. -/
theorem claim_C2_amended (keywords : List String) (rows : List JsonValue)
    (ah : Option (Except Unit ApiResultL)) (rng : Rng)
    (hk : keywords ≠ [])
    (hS : (rows.map (fun x => jsToLower (normalizeDataForSEOData x).keyword)).Nodup)
    (hK : (keywords.map jsToLower).Nodup)
    (hsub : ∀ s ∈ rows.map (fun x => jsToLower (normalizeDataForSEOData x).keyword),
      s ∈ keywords.map jsToLower) :
    (getBulkKeywordMetrics false (some (.ok ⟨true, some rows⟩)) ah
        keywords rng).length = keywords.length ∧
    ∀ r ∈ getBulkKeywordMetrics false (some (.ok ⟨true, some rows⟩)) ah
        keywords rng,
      (r.source = .dataforseo ∧ Dec.ltB ⟨0, 0⟩ r.confidence = true) ∨
      (r.source = .unavailable ∧ r.confidence = ⟨0, 0⟩ ∧ r.volume = .null ∧
        r.difficulty = .null ∧ r.cpc = .null ∧ r.competition = .null ∧
        r.trend = .null) := by
  have hke : keywords.isEmpty = false := by
    cases keywords with
    | nil => exact absurd rfl hk
    | cons a l => rfl
  constructor
  · simp only [getBulkKeywordMetrics, hke, Bool.false_or, Bool.false_eq_true,
      ite_false, if_true, List.length_append, List.length_map, List.map_map,
      Function.comp_def]
    have h1 := length_filter_contains keywords
      (rows.map (fun x => jsToLower (normalizeDataForSEOData x).keyword)) hS hK hsub
    have h2 := length_filter_split
      (fun k => (rows.map (fun x =>
        jsToLower (normalizeDataForSEOData x).keyword)).contains (jsToLower k))
      keywords
    simp only [List.length_map] at h1 h2 ⊢
    omega
  · intro r hr
    simp only [getBulkKeywordMetrics, hke, Bool.false_or, Bool.false_eq_true,
      ite_false, if_true] at hr
    rcases List.mem_append.mp hr with h | h
    · rcases List.mem_map.mp h with ⟨x, _, rfl⟩
      refine Or.inl ⟨rfl, ?_⟩
      show Dec.ltB ⟨0, 0⟩ ⟨95, -2⟩ = true
      decide
    · rcases List.mem_map.mp h with ⟨x, _, rfl⟩
      exact Or.inr ⟨rfl, rfl, rfl, rfl, rfl, rfl, rfl⟩

theorem claim_C2_witness :
    (getBulkKeywordMetrics false (some (.ok ⟨true, some [dfsRow]⟩)) none
        ["seo tools", "content marketing"] rng0).length = 2 ∧
    ∀ r ∈ getBulkKeywordMetrics false (some (.ok ⟨true, some [dfsRow]⟩)) none
        ["seo tools", "content marketing"] rng0,
      (r.source = .dataforseo ∧ Dec.ltB ⟨0, 0⟩ r.confidence = true) ∨
      (r.source = .unavailable ∧ r.confidence = ⟨0, 0⟩ ∧ r.volume = .null ∧
        r.difficulty = .null ∧ r.cpc = .null ∧ r.competition = .null ∧
        r.trend = .null) :=
  claim_C2_amended ["seo tools", "content marketing"] [dfsRow] none rng0
    (by decide) (by decide) (by decide) (by decide)

theorem kpInvariant_ndfs (x : JsonValue) :
    kpInvariant (normalizeDataForSEOData x) := by
  refine ⟨fun h => ?_, ?_, ?_⟩
  · simp [normalizeDataForSEOData] at h
  · show Dec.leB ⟨0, 0⟩ ⟨95, -2⟩ = true
    decide
  · show Dec.leB ⟨95, -2⟩ ⟨1, 0⟩ = true
    decide

theorem kpInvariant_nahrefs (x : JsonValue) :
    kpInvariant (normalizeAhrefsData x) := by
  refine ⟨fun h => ?_, ?_, ?_⟩
  · simp [normalizeAhrefsData] at h
  · show Dec.leB ⟨0, 0⟩ ⟨9, -1⟩ = true
    decide
  · show Dec.leB ⟨9, -1⟩ ⟨1, 0⟩ = true
    decide

theorem kpInvariant_mock (k : String) (r : Rng) :
    kpInvariant ((getMockKeywordData k r).1) := by
  refine ⟨fun h => ?_, ?_, ?_⟩
  · exact absurd h (by
      show KPSource.mock = KPSource.unavailable → False
      intro hc
      exact KPSource.noConfusion hc)
  · show Dec.leB ⟨0, 0⟩ ⟨5, -1⟩ = true
    decide
  · show Dec.leB ⟨5, -1⟩ ⟨1, 0⟩ = true
    decide

theorem kpInvariant_unavailable (k : String) : kpInvariant (mkUnavailable k) :=
  ⟨fun _ => ⟨rfl, rfl, rfl, rfl, rfl, rfl⟩,
   by show Dec.leB ⟨0, 0⟩ ⟨0, 0⟩ = true; decide,
   by show Dec.leB ⟨0, 0⟩ ⟨1, 0⟩ = true; decide⟩

theorem mockAll_cons (k : String) (ks : List String) (r : Rng) :
    mockAll (k :: ks) r
      = (getMockKeywordData k r).1 :: mockAll ks (getMockKeywordData k r).2 :=
  rfl

theorem kpInvariant_mockAll (ks : List String) (rng : Rng) :
    ∀ r ∈ mockAll ks rng, kpInvariant r := by
  induction ks generalizing rng with
  | nil => intro r hr; simp [mockAll] at hr
  | cons k ks ih =>
      intro r hr
      rw [mockAll_cons] at hr
      rcases List.mem_cons.mp hr with hr | hr
      · exact hr ▸ kpInvariant_mock k rng
      · exact ih _ r hr

theorem kpInvariant_ahrefsFallback (ah : Option (Except Unit ApiResultL))
    (ks : List String) (rng : Rng) :
    ∀ r ∈ ahrefsBulkFallback ah ks rng, kpInvariant r := by
  intro r hr
  unfold ahrefsBulkFallback at hr
  repeat' split at hr
  all_goals
    first
    | (rcases List.mem_map.mp hr with ⟨x, _, rfl⟩; exact kpInvariant_nahrefs x)
    | exact kpInvariant_mockAll ks rng r hr

/-- C3.  Every record produced by `getBulkKeywordMetrics` or
`getKeywordMetrics` satisfies the unified-record invariant:
`source = "unavailable"` forces all metric fields null and confidence 0,
and every confidence lies in `[0, 1]`. -/
theorem claim_C3 (mockMode : Bool) (dfs ahrefs : Option (Except Unit ApiResultL))
    (ahrefsOv : Option (Except Unit ApiResult1)) (keywords : List String)
    (keyword : String) (rng rng' : Rng) :
    (∀ r ∈ getBulkKeywordMetrics mockMode dfs ahrefs keywords rng, kpInvariant r) ∧
      kpInvariant (getKeywordMetrics mockMode dfs ahrefsOv keyword rng') := by
  constructor
  · intro r hr
    unfold getBulkKeywordMetrics at hr
    repeat' split at hr
    all_goals
      first
      | exact kpInvariant_mockAll keywords rng r hr
      | exact kpInvariant_ahrefsFallback _ keywords rng r hr
      | (rcases List.mem_append.mp hr with h | h
         · rcases List.mem_map.mp h with ⟨x, _, rfl⟩
           exact kpInvariant_ndfs x
         · rcases List.mem_map.mp h with ⟨x, _, rfl⟩
           exact kpInvariant_unavailable x)
  · unfold getKeywordMetrics
    repeat' split
    all_goals
      first
      | exact kpInvariant_mock keyword rng'
      | exact kpInvariant_ndfs _
      | exact kpInvariant_nahrefs _

theorem claim_C3_witness :
    kpInvariant (mkUnavailable "content marketing") :=
  (claim_C3 false (some (.ok ⟨true, some []⟩)) none none
      ["content marketing"] "x" rng0 rng0).1
    (mkUnavailable "content marketing") (by decide)

/-- C8.  A fresh cache hit short-circuits `makeLLMRequest`: the cached
response is returned (tagged `cached`, zero processing time), the whole
client state — cache, rate-limiter tokens, usage metrics and total
cost — is unchanged, and the network operation is never invoked; an
absent or expired entry is a miss. -/
theorem claim_C8 (cfg : RateLimiterConfig) (st : GeminiState) (now : Int)
    (promptLen : Nat) (k : String) (e : LLMCacheEntry) (cacheTtl : Int)
    (ridSuffix : String) (net : Except NetError NetResponse)
    (h1 : (st.cache.find? (fun p => p.1 = k)).map (·.2) = some e)
    (h2 : now < e.timestamp + e.ttl) :
    makeLLMRequest cfg st now promptLen (some k) cacheTtl ridSuffix net
      = (.ok { data := e.data.data, usage := e.data.usage, model := e.data.model,
               finish_reason := "cached",
               request_id := "cached_" ++ toString now,
               processing_time := 0 }, st, false) ∧
    (∀ k' : String,
      (st.cache.find? (fun p => p.1 = k')).map (·.2) = none →
        getLLMCache st.cache k' now = none) ∧
    (∀ (k' : String) (e' : LLMCacheEntry),
      (st.cache.find? (fun p => p.1 = k')).map (·.2) = some e' →
      ¬ now < e'.timestamp + e'.ttl →
        getLLMCache st.cache k' now = none) := by
  have hc : getLLMCache st.cache k now = some e.data := by
    unfold getLLMCache
    rw [h1]
    simp [h2]
  refine ⟨?_, ?_, ?_⟩
  · simp only [makeLLMRequest, hc]
  · intro k' h
    unfold getLLMCache
    rw [h]
  · intro k' e' h hnl
    unfold getLLMCache
    rw [h]
    simp [hnl]

theorem claim_C8_witness :
    makeLLMRequest ⟨50, 10, 60000⟩
        ⟨[("exp", ⟨⟨.null, ⟨1, 2, "gemini-1.5-pro", ⟨0, 0⟩, "r1"⟩,
            "gemini-1.5-pro", "stop", "r1", 7⟩, 0, 86400000⟩)],
          ⟨0, 0⟩, ⟨0, 0, 0, 0, 0, ⟨0, 0⟩, 0, ⟨0, 0⟩⟩⟩
        5 12 (some "exp") 86400000 "sfx" (.error ⟨"down", false⟩)
      = (.ok { data := .null,
               usage := ⟨1, 2, "gemini-1.5-pro", ⟨0, 0⟩, "r1"⟩,
               model := "gemini-1.5-pro",
               finish_reason := "cached",
               request_id := "cached_" ++ toString (5 : Int),
               processing_time := 0 },
         ⟨[("exp", ⟨⟨.null, ⟨1, 2, "gemini-1.5-pro", ⟨0, 0⟩, "r1"⟩,
             "gemini-1.5-pro", "stop", "r1", 7⟩, 0, 86400000⟩)],
           ⟨0, 0⟩, ⟨0, 0, 0, 0, 0, ⟨0, 0⟩, 0, ⟨0, 0⟩⟩⟩, false) :=
  (claim_C8 ⟨50, 10, 60000⟩
      ⟨[("exp", ⟨⟨.null, ⟨1, 2, "gemini-1.5-pro", ⟨0, 0⟩, "r1"⟩,
          "gemini-1.5-pro", "stop", "r1", 7⟩, 0, 86400000⟩)],
        ⟨0, 0⟩, ⟨0, 0, 0, 0, 0, ⟨0, 0⟩, 0, ⟨0, 0⟩⟩⟩
      5 12 "exp" ⟨⟨.null, ⟨1, 2, "gemini-1.5-pro", ⟨0, 0⟩, "r1"⟩,
        "gemini-1.5-pro", "stop", "r1", 7⟩, 0, 86400000⟩
      86400000 "sfx" (.error ⟨"down", false⟩) (by decide) (by decide)).1

/-- C9.  When the cache misses and the rate limiter rejects,
`makeLLMRequest` throws immediately without invoking the network
operation: `rateLimitHits` is incremented, and the error carries
`code RATE_LIMIT_ERROR`, status `429`, `retryable`, and a retry-after
estimate `⌈(nextRefillTime − now)/1000⌉` derived from the limiter. -/
theorem claim_C9 (cfg : RateLimiterConfig) (st : GeminiState) (now : Int)
    (promptLen : Nat) (k : String) (cacheTtl : Int) (ridSuffix : String)
    (net : Except NetError NetResponse)
    (h1 : getLLMCache st.cache k now = none)
    (h2 : (tryConsume cfg st.rl now 1).1 = false) :
    makeLLMRequest cfg st now promptLen (some k) cacheTtl ridSuffix net
      = (.error
          { message := "Rate limit exceeded"
            code := some "RATE_LIMIT_ERROR"
            statusCode := some 429
            retryable := true
            retryAfter := some (iceilDiv
              (getNextRefillTime cfg (tryConsume cfg st.rl now 1).2 - now) 1000) },
         { st with rl := (tryConsume cfg st.rl now 1).2,
                   metrics := { st.metrics with
                     rateLimitHits := st.metrics.rateLimitHits + 1 } },
         false) := by
  rcases htc : tryConsume cfg st.rl now 1 with ⟨ok, rl'⟩
  have hok : ok = false := by rw [htc] at h2; exact h2
  subst hok
  simp only [makeLLMRequest, h1, htc, Bool.not_false, if_true]

theorem claim_C9_witness :
    makeLLMRequest ⟨50, 10, 60000⟩ ⟨[], ⟨0, 0⟩, ⟨0, 0, 0, 0, 0, ⟨0, 0⟩, 0, ⟨0, 0⟩⟩⟩
        0 12 (some "exp") 86400000 "sfx" (.ok ⟨"[]", none, none, false⟩)
      = (.error
          { message := "Rate limit exceeded"
            code := some "RATE_LIMIT_ERROR"
            statusCode := some 429
            retryable := true
            retryAfter := some (iceilDiv
              (getNextRefillTime ⟨50, 10, 60000⟩
                (tryConsume ⟨50, 10, 60000⟩ ⟨0, 0⟩ 0 1).2 - 0) 1000) },
         ⟨[], (tryConsume ⟨50, 10, 60000⟩ ⟨0, 0⟩ 0 1).2,
           ⟨0, 0, 0, 1, 0, ⟨0, 0⟩, 0, ⟨0, 0⟩⟩⟩, false) :=
  claim_C9 ⟨50, 10, 60000⟩ ⟨[], ⟨0, 0⟩, ⟨0, 0, 0, 0, 0, ⟨0, 0⟩, 0, ⟨0, 0⟩⟩⟩
    0 12 "exp" 86400000 "sfx" (.ok ⟨"[]", none, none, false⟩)
    (by decide) (by decide)

/-- C10.  The input guards of the public interface throw before any
cache read, rate-limiter consumption or network call:
`expandToDream100` rejects an empty seed list and `target_count > 150`,
`classifyIntent` rejects an empty keyword list and more than 500
keywords — in every case the state is returned unchanged and the
network oracle untouched. -/
theorem claim_C10 :
    (∀ (cfg : RateLimiterConfig) (req : ExpansionRequest) (st : GeminiState)
        (now : Int) (promptLen : Nat) (cacheTtl : Int) (ridSuffix : String)
        (nets : List (Except NetError NetResponse)),
      req.seed_keywords = [] →
      expandToDream100 cfg req st now promptLen cacheTtl ridSuffix nets
        = (.error (plainError "At least one seed keyword is required"), st, false)) ∧
    (∀ (cfg : RateLimiterConfig) (req : ExpansionRequest) (st : GeminiState)
        (now : Int) (promptLen : Nat) (cacheTtl : Int) (ridSuffix : String)
        (nets : List (Except NetError NetResponse)),
      req.seed_keywords ≠ [] → req.target_count > 150 →
      expandToDream100 cfg req st now promptLen cacheTtl ridSuffix nets
        = (.error (plainError
            "Maximum 150 keywords per expansion to maintain quality and avoid token limits"),
           st, false)) ∧
    (∀ (cfg : RateLimiterConfig) (req : IntentRequest) (st : GeminiState)
        (now : Int) (promptLen : Nat) (cacheTtl : Int) (ridSuffix : String)
        (net : Except NetError NetResponse),
      req.keywords = [] →
      classifyIntent cfg req st now promptLen cacheTtl ridSuffix net
        = (.error (plainError "At least one keyword is required"), st, false)) ∧
    (∀ (cfg : RateLimiterConfig) (req : IntentRequest) (st : GeminiState)
        (now : Int) (promptLen : Nat) (cacheTtl : Int) (ridSuffix : String)
        (net : Except NetError NetResponse),
      req.keywords.length > 500 →
      classifyIntent cfg req st now promptLen cacheTtl ridSuffix net
        = (.error (plainError "Maximum 500 keywords per classification request"),
           st, false)) := by
  refine ⟨?_, ?_, ?_, ?_⟩
  · intro cfg req st now promptLen cacheTtl ridSuffix nets h
    simp [expandToDream100, h]
  · intro cfg req st now promptLen cacheTtl ridSuffix nets hne h150
    have hlen : req.seed_keywords.length ≠ 0 := by
      simpa [List.length_eq_zero] using hne
    simp [expandToDream100, hlen, h150]
  · intro cfg req st now promptLen cacheTtl ridSuffix net h
    simp [classifyIntent, h]
  · intro cfg req st now promptLen cacheTtl ridSuffix net h500
    have hlen : req.keywords.length ≠ 0 := by omega
    simp [classifyIntent, hlen, h500]

theorem claim_C10_witness :
    expandToDream100 ⟨50, 10, 60000⟩ ⟨[], 100, none, some "mixed"⟩
        ⟨[], ⟨0, 0⟩, ⟨0, 0, 0, 0, 0, ⟨0, 0⟩, 0, ⟨0, 0⟩⟩⟩ 0 12 86400000 "sfx" []
      = (.error (plainError "At least one seed keyword is required"),
         ⟨[], ⟨0, 0⟩, ⟨0, 0, 0, 0, 0, ⟨0, 0⟩, 0, ⟨0, 0⟩⟩⟩, false) ∧
    classifyIntent ⟨50, 10, 60000⟩ ⟨[], "\x7b\x7d"⟩
        ⟨[], ⟨0, 0⟩, ⟨0, 0, 0, 0, 0, ⟨0, 0⟩, 0, ⟨0, 0⟩⟩⟩ 0 12 86400000 "sfx"
        (.error ⟨"down", false⟩)
      = (.error (plainError "At least one keyword is required"),
         ⟨[], ⟨0, 0⟩, ⟨0, 0, 0, 0, 0, ⟨0, 0⟩, 0, ⟨0, 0⟩⟩⟩, false) :=
  ⟨claim_C10.1 ⟨50, 10, 60000⟩ ⟨[], 100, none, some "mixed"⟩
      ⟨[], ⟨0, 0⟩, ⟨0, 0, 0, 0, 0, ⟨0, 0⟩, 0, ⟨0, 0⟩⟩⟩ 0 12 86400000 "sfx" [] rfl,
   claim_C10.2.2.1 ⟨50, 10, 60000⟩ ⟨[], "\x7b\x7d"⟩
      ⟨[], ⟨0, 0⟩, ⟨0, 0, 0, 0, 0, ⟨0, 0⟩, 0, ⟨0, 0⟩⟩⟩ 0 12 86400000 "sfx"
      (.error ⟨"down", false⟩) rfl⟩

theorem goodKwChar_spec {c : Char} (h : goodKwChar c = true) :
    c ≠ '"' ∧ c ≠ '\\' ∧ c ≠ '[' ∧ c ≠ ']' ∧ c ≠ '`' ∧ ¬ c.toNat < 32 := by
  simp only [goodKwChar, Bool.and_eq_true, Bool.not_eq_true', decide_eq_true_eq,
    decide_eq_false_iff_not] at h
  refine ⟨?_, ?_, ?_, ?_, ?_, by omega⟩ <;> simp_all

theorem parseStringAux_append (kw : List Char) (hk : kw.all goodKwChar = true) :
    ∀ acc rest, parseStringAux acc (kw ++ '"' :: rest)
      = some (acc.reverse ++ kw, rest) := by
  induction kw with
  | nil =>
      intro acc rest
      rw [List.nil_append, parseStringAux.eq_def]
      simp
  | cons c cs ih =>
      intro acc rest
      rw [List.all_cons, Bool.and_eq_true] at hk
      have hc := goodKwChar_spec hk.1
      rw [List.cons_append, parseStringAux.eq_def]
      simp only [if_neg hc.1, if_neg hc.2.1, if_neg hc.2.2.2.2.2,
        ih hk.2 (c :: acc) rest]
      simp

theorem skipWs_cons {c : Char} (h : isJsonWs c = false) (l : List Char) :
    skipWs (c :: l) = c :: l := by
  simp [skipWs, List.dropWhile_cons, h]

/-- One-step unfolding of `parseValue` at positive fuel. -/
theorem parseValue_succ (f : Nat) (cs : List Char) :
    parseValue (f + 1) cs =
      (match skipWs cs with
      | [] => none
      | c :: rest =>
        if c = '"' then
          (parseStringAux [] rest).map (fun p => (.str (String.mk p.1), p.2))
        else if c = '[' then
          match skipWs rest with
          | ']' :: r2 => some (.arr [], r2)
          | _ => parseElems f rest []
        else if c = '{' then
          match skipWs rest with
          | '}' :: r2 => some (.obj [], r2)
          | _ => parseFields f rest []
        else if c = 't' then
          match rest with
          | 'r' :: 'u' :: 'e' :: r => some (.bool true, r)
          | _ => none
        else if c = 'f' then
          match rest with
          | 'a' :: 'l' :: 's' :: 'e' :: r => some (.bool false, r)
          | _ => none
        else if c = 'n' then
          match rest with
          | 'u' :: 'l' :: 'l' :: r => some (.null, r)
          | _ => none
        else
          (parseNumber (c :: rest)).map (fun p => (.num p.1, p.2))) := by
  rw [parseValue.eq_def]

theorem parseValue_zero (cs : List Char) : parseValue 0 cs = none := by
  rw [parseValue.eq_def]

/-- One-step unfolding of `parseElems` at positive fuel. -/
theorem parseElems_succ (f : Nat) (cs : List Char) (acc : List JsonValue) :
    parseElems (f + 1) cs acc =
      (match parseValue f cs with
      | none => none
      | some (v, r) =>
        match skipWs r with
        | ',' :: r2 => parseElems f r2 (v :: acc)
        | ']' :: r2 => some (.arr (v :: acc).reverse, r2)
        | _ => none) := by
  rw [parseElems.eq_def]

theorem parseElems_zero (cs : List Char) (acc : List JsonValue) :
    parseElems 0 cs acc = none := by
  rw [parseElems.eq_def]

/-- One-step unfolding of `parseFields` at positive fuel. -/
theorem parseFields_succ (f : Nat) (cs : List Char)
    (acc : List (String × JsonValue)) :
    parseFields (f + 1) cs acc =
      (match skipWs cs with
      | '"' :: r =>
        match parseStringAux [] r with
        | none => none
        | some (k, r2) =>
          match skipWs r2 with
          | ':' :: r3 =>
            match parseValue f r3 with
            | none => none
            | some (v, r4) =>
              match skipWs r4 with
              | ',' :: r5 => parseFields f r5 ((String.mk k, v) :: acc)
              | '}' :: r5 => some (.obj ((String.mk k, v) :: acc).reverse, r5)
              | _ => none
          | _ => none
      | _ => none) := by
  rw [parseFields.eq_def]

theorem parseFields_zero (cs : List Char) (acc : List (String × JsonValue)) :
    parseFields 0 cs acc = none := by
  rw [parseFields.eq_def]

theorem parseValue_strLit (f : Nat) (kw : List Char)
    (hk : kw.all goodKwChar = true) (rest : List Char) :
    parseValue (f + 1) ('"' :: (kw ++ '"' :: rest))
      = some (.str (String.mk kw), rest) := by
  rw [parseValue_succ, @skipWs_cons '"' (by decide)]
  simp [parseStringAux_append kw hk [] rest]

theorem encKw_data (kw : String) :
    (encKw kw).data
      = '\x7b' :: '"' :: 'k' :: 'e' :: 'y' :: 'w' :: 'o' :: 'r' :: 'd' :: '"'
          :: ':' :: '"' :: (kw.data ++ ['"', '\x7d']) := by
  show (("\x7b\"keyword\":\"" ++ kw ++ "\"\x7d" : String)).data = _
  rw [String.data_append, String.data_append]
  rfl


theorem parseValue_encKw (f : Nat) (kw : String)
    (hk : kw.data.all goodKwChar = true) (rest : List Char) :
    parseValue (f + 1 + 1 + 1) ((encKw kw).data ++ rest)
      = some (kwObj kw, rest) := by
  rw [encKw_data]
  simp only [List.cons_append, List.append_assoc, List.singleton_append]
  rw [parseValue_succ, @skipWs_cons '\x7b' (by decide)]
  simp
  rw [@skipWs_cons '"' (by decide)]
  split
  · simp_all
  rw [parseFields_succ, @skipWs_cons '"' (by decide)]
  split
  · rename_i k r2 heq
    rw [List.cons.injEq] at heq
    obtain ⟨-, hr⟩ := heq
    subst hr
    have hkey := parseStringAux_append ['k', 'e', 'y', 'w', 'o', 'r', 'd']
      (by decide) [] (':' :: '"' :: (kw.data ++ '"' :: '\x7d' :: rest))
    simp only [List.cons_append, List.nil_append, List.reverse_nil] at hkey
    rw [hkey]
    simp only [List.cons.injEq]
    rw [@skipWs_cons ':' (by decide)]
    split
    · rename_i r3 heq2
      rw [List.cons.injEq] at heq2
      obtain ⟨-, hr3⟩ := heq2
      subst hr3
      rw [parseValue_strLit f kw.data hk ('\x7d' :: rest)]
      simp only [List.cons.injEq]
      rw [@skipWs_cons '\x7d' (by decide)]
      split
      · simp_all
      · rename_i r5 heq3
        rw [List.cons.injEq] at heq3
        obtain ⟨-, hr5⟩ := heq3
        subst hr5
        rfl
      · rename_i hne1 hne2
        exact (hne2 rest rfl).elim
    · rename_i hne
      exact (hne _ rfl).elim
  · rename_i hne
    exact (hne _ rfl).elim

theorem parseValue_encKw_one (kw : String) (rest : List Char) :
    parseValue 1 ((encKw kw).data ++ rest) = none := by
  rw [encKw_data]
  simp only [List.cons_append, List.append_assoc, List.singleton_append]
  rw [show (1 : Nat) = 0 + 1 from rfl, parseValue_succ,
    @skipWs_cons '\x7b' (by decide)]
  simp
  rw [@skipWs_cons '"' (by decide)]
  split
  · simp_all
  exact parseFields_zero _ _

theorem parseValue_encKw_two (kw : String) (rest : List Char) :
    parseValue 2 ((encKw kw).data ++ rest) = none := by
  rw [encKw_data]
  simp only [List.cons_append, List.append_assoc, List.singleton_append]
  rw [show (2 : Nat) = 1 + 1 from rfl, parseValue_succ,
    @skipWs_cons '\x7b' (by decide)]
  simp
  rw [@skipWs_cons '"' (by decide)]
  split
  · simp_all
  rw [show (1 : Nat) = 0 + 1 from rfl, parseFields_succ,
    @skipWs_cons '"' (by decide)]
  split
  · rename_i k r2 heq
    rw [List.cons.injEq] at heq
    obtain ⟨-, hr⟩ := heq
    subst hr
    have hkey := parseStringAux_append ['k', 'e', 'y', 'w', 'o', 'r', 'd']
      (by decide) [] (':' :: '"' :: (kw.data ++ '"' :: '\x7d' :: rest))
    simp only [List.cons_append, List.nil_append, List.reverse_nil] at hkey
    rw [hkey]
    simp only [List.cons.injEq]
    rw [@skipWs_cons ':' (by decide)]
    split
    · rename_i r3 heq2
      rw [parseValue_zero]
    · rename_i hne
      exact (hne _ rfl).elim
  · rename_i hne
    exact (hne _ rfl).elim

theorem parseValue_encKw_cases (f : Nat) (kw : String)
    (hk : kw.data.all goodKwChar = true) (rest : List Char) :
    parseValue f ((encKw kw).data ++ rest) = none ∨
      parseValue f ((encKw kw).data ++ rest) = some (kwObj kw, rest) := by
  match f with
  | 0 => exact Or.inl (parseValue_zero _)
  | 1 => exact Or.inl (parseValue_encKw_one kw rest)
  | 2 => exact Or.inl (parseValue_encKw_two kw rest)
  | (n + 3) => exact Or.inr (parseValue_encKw n kw hk rest)


theorem parseValue_tObj_none (rest' : List Char)
    (h : parseStringAux [] rest' = none) :
    ∀ f, parseValue f (tObjChars ++ rest') = none := by
  intro f
  match f with
  | 0 => exact parseValue_zero _
  | f + 1 =>
    rw [show tObjChars ++ rest'
        = '\x7b' :: '"' :: 'k' :: 'e' :: 'y' :: 'w' :: 'o' :: 'r' :: 'd' :: '"'
            :: ':' :: '"' :: rest' from rfl]
    rw [parseValue_succ, @skipWs_cons '\x7b' (by decide)]
    simp
    rw [@skipWs_cons '"' (by decide)]
    split
    · simp_all
    match f with
    | 0 => exact parseFields_zero _ _
    | f + 1 =>
      rw [parseFields_succ, @skipWs_cons '"' (by decide)]
      split
      · rename_i k r2 heq
        rw [List.cons.injEq] at heq
        obtain ⟨-, hr⟩ := heq
        subst hr
        have hkey := parseStringAux_append ['k', 'e', 'y', 'w', 'o', 'r', 'd']
          (by decide) [] (':' :: '"' :: rest')
        simp only [List.cons_append, List.nil_append, List.reverse_nil] at hkey
        rw [hkey]
        simp only [List.cons.injEq]
        rw [@skipWs_cons ':' (by decide)]
        split
        · rename_i r3 heq2
          rw [List.cons.injEq] at heq2
          obtain ⟨-, hr3⟩ := heq2
          subst hr3
          match f with
          | 0 => rw [parseValue_zero]
          | f + 1 =>
            rw [parseValue_succ, @skipWs_cons '"' (by decide)]
            simp [h]
        · rename_i hne
          exact (hne _ rfl).elim
      · rename_i hne
        exact (hne _ rfl).elim

theorem parseNumber_comma (l : List Char) : parseNumber (',' :: l) = none := by
  rw [parseNumber.eq_def]
  split
  all_goals rename_i heq
  all_goals
    try (obtain ⟨-, hcs⟩ := heq)
    try subst hcs
    simp_all

theorem parseValue_comma_none (l : List Char) :
    ∀ f, parseValue f (',' :: l) = none := by
  intro f
  match f with
  | 0 => exact parseValue_zero _
  | f + 1 =>
    rw [parseValue_succ, @skipWs_cons ',' (by decide)]
    simp [parseNumber_comma]


theorem encJoin_cons_body (k : String) (ks : List String) (t0 : List Char) :
    encJoin (k :: ks) ++ ',' :: t0 = bodyB (k :: ks) t0 := by
  induction ks generalizing k with
  | nil => rfl
  | cons k2 ks' ih =>
      show ((encKw k).data ++ ',' :: encJoin (k2 :: ks')) ++ ',' :: t0
        = (encKw k).data ++ ',' :: bodyB (k2 :: ks') t0
      rw [List.append_assoc, List.cons_append, ih k2]

theorem parseElems_comma_none (l : List Char) :
    ∀ f acc, parseElems f (',' :: l) acc = none := by
  intro f acc
  match f with
  | 0 => exact parseElems_zero _ _
  | f + 1 =>
      rw [parseElems_succ, parseValue_comma_none l f]

theorem parseElems_bodyB_none (t0 : List Char)
    (htv : ∀ f, parseValue f t0 = none) :
    ∀ (objs : List String), (∀ k ∈ objs, k.data.all goodKwChar = true) →
      ∀ f acc, parseElems f (bodyB objs t0) acc = none := by
  intro objs
  induction objs with
  | nil =>
      intro _ f acc
      match f with
      | 0 => exact parseElems_zero _ _
      | f + 1 =>
          show parseElems (f + 1) t0 acc = none
          rw [parseElems_succ, htv f]
  | cons k ks ih =>
      intro hg f acc
      match f with
      | 0 => exact parseElems_zero _ _
      | f + 1 =>
          rw [show bodyB (k :: ks) t0 = (encKw k).data ++ ',' :: bodyB ks t0
            from rfl, parseElems_succ]
          rcases parseValue_encKw_cases f k (hg k (by simp))
            (',' :: bodyB ks t0) with hnone | hsome
          · rw [hnone]
          · rw [hsome]
            simp only [List.cons.injEq]
            rw [@skipWs_cons ',' (by decide)]
            split
            · rename_i r2 heq
              rw [List.cons.injEq] at heq
              obtain ⟨-, hr⟩ := heq
              subst hr
              exact ih (fun x hx => hg x (by simp [hx])) f _
            · simp_all
            · rename_i hne1 hne2
              exact (hne1 _ rfl).elim

theorem parseValue_truncBody_none (t0 : List Char)
    (htv : ∀ f, parseValue f t0 = none)
    (objs : List String) (hg : ∀ k ∈ objs, k.data.all goodKwChar = true) :
    ∀ f, parseValue f ('[' :: (encJoin objs ++ ',' :: t0)) = none := by
  intro f
  match f with
  | 0 => exact parseValue_zero _
  | f + 1 =>
      rw [parseValue_succ, @skipWs_cons '[' (by decide)]
      simp
      cases objs with
      | nil =>
          rw [show encJoin [] ++ ',' :: t0 = ',' :: t0 from rfl,
            @skipWs_cons ',' (by decide)]
          split
          · simp_all
          · exact parseElems_comma_none t0 f []
      | cons k ks =>
          rw [encJoin_cons_body]
          have htail : ∃ tail, bodyB (k :: ks) t0 = '\x7b' :: tail := by
            rw [show bodyB (k :: ks) t0 = (encKw k).data ++ ',' :: bodyB ks t0
              from rfl, encKw_data]
            exact ⟨'"' :: 'k' :: 'e' :: 'y' :: 'w' :: 'o' :: 'r' :: 'd' :: '"'
              :: ':' :: '"' :: (k.data ++ '"' :: '\x7d' :: ',' :: bodyB ks t0),
              by simp⟩
          obtain ⟨tail, htail⟩ := htail
          rw [htail, @skipWs_cons '\x7b' (by decide)]
          split
          · simp_all
          · rw [← htail]
            exact parseElems_bodyB_none t0 htv (k :: ks) hg f []

theorem parseValue_tObjPlain_none (f : Nat) :
    parseValue f tObjChars = none := by
  have h := parseValue_tObj_none [] (by decide) f
  simpa using h

theorem jsonParse_truncInput_none (objs : List String)
    (hg : ∀ k ∈ objs, k.data.all goodKwChar = true) :
    jsonParse (truncInput objs) = none := by
  unfold jsonParse
  rw [show (truncInput objs).data
      = '[' :: (encJoin objs ++ ',' :: tObjChars) from rfl]
  rw [parseValue_truncBody_none tObjChars parseValue_tObjPlain_none objs hg _]

theorem jsonParse_truncInputClose_none (objs : List String)
    (hg : ∀ k ∈ objs, k.data.all goodKwChar = true) :
    jsonParse (String.mk ((truncInput objs).data ++ [']'])) = none := by
  unfold jsonParse
  rw [show (String.mk ((truncInput objs).data ++ [']'])).data
      = ('[' :: (encJoin objs ++ ',' :: tObjChars)) ++ [']'] from rfl]
  rw [show ('[' :: (encJoin objs ++ ',' :: tObjChars)) ++ [']']
      = '[' :: (encJoin objs ++ ',' :: (tObjChars ++ [']'])) from by simp]
  rw [parseValue_truncBody_none (tObjChars ++ [']'])
    (parseValue_tObj_none [']'] (by decide)) objs hg _]

theorem jsonParse_encKw (kw : String) (hk : kw.data.all goodKwChar = true) :
    jsonParse (encKw kw) = some (kwObj kw) := by
  unfold jsonParse
  obtain ⟨n, hn⟩ : ∃ n, 2 * (encKw kw).length + 2 = n + 1 + 1 + 1 := by
    refine ⟨2 * (encKw kw).length - 1, ?_⟩
    have h1 : 1 ≤ (encKw kw).length := by
      show 1 ≤ (encKw kw).data.length
      rw [encKw_data]
      simp
    omega
  rw [hn]
  have h := parseValue_encKw n kw hk []
  rw [List.append_nil] at h
  rw [h]
  rfl

theorem fbjGo_no_brackets (full : List Char) (ai : Bool) :
    ∀ (cs : List Char), (∀ c ∈ cs, c ≠ '[' ∧ c ≠ ']') →
    ∀ (i : Nat) (depth : Int) (si : Option Nat),
      fbjGo '[' ']' full ai cs i depth si
        = (match si with
           | some k =>
               if ai ∧ depth > 0 then
                 some (full.drop k ++ List.replicate depth.toNat ']')
               else none
           | none => none) := by
  intro cs
  induction cs with
  | nil =>
      intro _ i depth si
      rw [fbjGo.eq_def]
  | cons c cs ih =>
      intro h i depth si
      have hc := h c (by simp)
      rw [fbjGo.eq_def]
      simp only [if_neg hc.1, if_neg hc.2]
      exact ih (fun x hx => h x (by simp [hx])) (i + 1) depth si

theorem encJoin_mem : ∀ (objs : List String) (c : Char), c ∈ encJoin objs →
    (∃ k ∈ objs, c ∈ (encKw k).data) ∨ c = ','
  | [], c, hc => by simp [encJoin] at hc
  | [k], c, hc => Or.inl ⟨k, by simp, by simpa [encJoin] using hc⟩
  | k :: k2 :: ks, c, hc => by
      rw [show encJoin (k :: k2 :: ks)
          = (encKw k).data ++ ',' :: encJoin (k2 :: ks) from rfl] at hc
      rcases List.mem_append.mp hc with h | h
      · exact Or.inl ⟨k, by simp, h⟩
      · rcases List.mem_cons.mp h with h | h
        · exact Or.inr h
        · rcases encJoin_mem (k2 :: ks) c h with ⟨k', hk', hc'⟩ | h'
          · exact Or.inl ⟨k', List.mem_cons_of_mem k hk', hc'⟩
          · exact Or.inr h'

theorem encKw_mem_spec (k : String) (hk : k.data.all goodKwChar = true)
    (c : Char) (hc : c ∈ (encKw k).data) : c ≠ '[' ∧ c ≠ ']' ∧ c ≠ '`' := by
  by_cases hkd : c ∈ k.data
  · have := goodKwChar_spec (List.all_eq_true.mp hk c hkd)
    exact ⟨this.2.2.1, this.2.2.2.1, this.2.2.2.2.1⟩
  · have hlit : c ∈ (['\x7b', '"', 'k', 'e', 'y', 'w', 'o', 'r', 'd', '"', ':',
        '"', '"', '\x7d'] : List Char) := by
      rw [encKw_data] at hc
      simp only [List.mem_cons, List.mem_append, List.mem_singleton] at hc ⊢
      tauto
    have hall : ∀ x ∈ (['\x7b', '"', 'k', 'e', 'y', 'w', 'o', 'r', 'd', '"', ':',
        '"', '"', '\x7d'] : List Char), x ≠ '[' ∧ x ≠ ']' ∧ x ≠ '`' := by decide
    exact hall c hlit

theorem family_bracketFree (objs : List String)
    (hg : ∀ k ∈ objs, k.data.all goodKwChar = true) :
    ∀ c ∈ encJoin objs ++ ',' :: tObjChars, c ≠ '[' ∧ c ≠ ']' := by
  intro c hc
  rcases List.mem_append.mp hc with h | h
  · rcases encJoin_mem objs c h with ⟨k, hk, hck⟩ | h'
    · exact ⟨(encKw_mem_spec k (hg k hk) c hck).1, (encKw_mem_spec k (hg k hk) c hck).2.1⟩
    · subst h'; exact ⟨by decide, by decide⟩
  · have hall : ∀ x ∈ ',' :: tObjChars, x ≠ '[' ∧ x ≠ ']' := by decide
    exact hall c h

theorem fbj_truncInput (objs : List String)
    (hg : ∀ k ∈ objs, k.data.all goodKwChar = true) :
    findBalancedJSON (truncInput objs) '[' ']' false = none ∧
      findBalancedJSON (truncInput objs) '[' ']' true
        = some (String.mk ((truncInput objs).data ++ [']'])) := by
  have hdata : (truncInput objs).data
      = '[' :: (encJoin objs ++ ',' :: tObjChars) := rfl
  have hbf := family_bracketFree objs hg
  constructor
  · show (fbjGo '[' ']' (truncInput objs).data false (truncInput objs).data
        0 0 none).map String.mk = none
    rw [hdata, fbjGo.eq_def]
    simp
    rw [fbjGo_no_brackets _ false _ hbf 1 1 (some 0)]
    rfl
  · show (fbjGo '[' ']' (truncInput objs).data true (truncInput objs).data
        0 0 none).map String.mk = _
    rw [hdata, fbjGo.eq_def]
    simp only [ite_true, reduceIte, Nat.zero_add, Int.zero_add]
    rw [fbjGo_no_brackets _ true _ hbf 1 1 (some 0)]
    simp

theorem sal_inString_run (ds : List Char)
    (hd : ∀ c ∈ ds, c ≠ '"' ∧ c ≠ '\\') :
    ∀ (cur : List Char) (d : Int) (acc : List String),
      List.foldl salvageStep ⟨cur, d, true, false, acc⟩ ds
        = ⟨ds.reverse ++ cur, d, true, false, acc⟩ := by
  induction ds with
  | nil => intro cur d acc; simp
  | cons c cs ih =>
      intro cur d acc
      have hc := hd c (by simp)
      rw [List.foldl_cons,
        show salvageStep ⟨cur, d, true, false, acc⟩ c
            = ⟨c :: cur, d, true, false, acc⟩ from by
          simp [salvageStep, hc.1, hc.2],
        ih (fun x hx => hd x (by simp [hx])) (c :: cur) d acc]
      simp

theorem sal_encKw (kw : String) (hk : kw.data.all goodKwChar = true)
    (cur : List Char) (acc : List String) :
    List.foldl salvageStep ⟨cur, 0, false, false, acc⟩ (encKw kw).data
      = ⟨[], 0, false, false, encKw kw :: acc⟩ := by
  have hkw : ∀ c ∈ kw.data, c ≠ '"' ∧ c ≠ '\\' := by
    intro c hc
    have := goodKwChar_spec (List.all_eq_true.mp hk c hc)
    exact ⟨this.1, this.2.1⟩
  rw [encKw_data]
  simp only [List.foldl_cons]
  simp [salvageStep, sal_inString_run kw.data hkw]
  rw [← encKw_data]

theorem sal_comma (cur : List Char) (acc : List String) :
    salvageStep ⟨cur, 0, false, false, acc⟩ ',' = ⟨cur, 0, false, false, acc⟩ := by
  simp [salvageStep]

theorem sal_openBracket (acc : List String) :
    salvageStep ⟨[], 0, false, false, acc⟩ '[' = ⟨[], 0, false, false, acc⟩ := by
  simp [salvageStep]

theorem sal_tClose (cur : List Char) (acc : List String) :
    List.foldl salvageStep ⟨cur, 0, false, false, acc⟩ (tObjChars ++ [']'])
      = ⟨[']', '"', ':', '"', 'd', 'r', 'o', 'w', 'y', 'e', 'k', '"', '\x7b'],
          1, true, false, acc⟩ := by
  show List.foldl salvageStep ⟨cur, 0, false, false, acc⟩
      ('\x7b' :: '"' :: 'k' :: 'e' :: 'y' :: 'w' :: 'o' :: 'r' :: 'd' :: '"'
        :: ':' :: '"' :: [']']) = _
  simp [salvageStep]

theorem sal_bodyB : ∀ (objs : List String),
    (∀ k ∈ objs, k.data.all goodKwChar = true) →
    ∀ (cur : List Char) (acc : List String),
      List.foldl salvageStep ⟨cur, 0, false, false, acc⟩
          (bodyB objs (tObjChars ++ [']']))
        = ⟨[']', '"', ':', '"', 'd', 'r', 'o', 'w', 'y', 'e', 'k', '"', '\x7b'],
            1, true, false, (objs.map encKw).reverse ++ acc⟩ := by
  intro objs
  induction objs with
  | nil =>
      intro _ cur acc
      rw [show bodyB [] (tObjChars ++ [']']) = tObjChars ++ [']'] from rfl,
        sal_tClose]
      simp
  | cons k ks ih =>
      intro hg cur acc
      rw [show bodyB (k :: ks) (tObjChars ++ [']'])
          = (encKw k).data ++ ',' :: bodyB ks (tObjChars ++ [']']) from rfl,
        List.foldl_append, sal_encKw k (hg k (by simp)) cur acc,
        List.foldl_cons, sal_comma,
        ih (fun x hx => hg x (by simp [hx])) [] (encKw k :: acc)]
      simp

theorem salvageRun_family (objs : List String)
    (hg : ∀ k ∈ objs, k.data.all goodKwChar = true) :
    salvageRun ('[' :: (encJoin objs ++ ',' :: (tObjChars ++ [']'])))
      = objs.map encKw := by
  unfold salvageRun salvageInit
  rw [List.foldl_cons, sal_openBracket]
  cases objs with
  | nil =>
      rw [show encJoin [] ++ ',' :: (tObjChars ++ [']'])
          = ',' :: (tObjChars ++ [']']) from rfl,
        List.foldl_cons, sal_comma, sal_tClose]
      simp
  | cons k ks =>
      rw [encJoin_cons_body, sal_bodyB (k :: ks) hg [] []]
      simp

theorem family_no_backtick (objs : List String)
    (hg : ∀ k ∈ objs, k.data.all goodKwChar = true) :
    ∀ c ∈ (truncInput objs).data, c ≠ '`' := by
  intro c hc
  rw [show (truncInput objs).data
      = '[' :: (encJoin objs ++ ',' :: tObjChars) from rfl] at hc
  rcases List.mem_cons.mp hc with h | h
  · subst h; decide
  · rcases List.mem_append.mp h with h | h
    · rcases encJoin_mem objs c h with ⟨k, hk, hck⟩ | h'
      · exact (encKw_mem_spec k (hg k hk) c hck).2.2
      · subst h'; decide
    · have hall : ∀ x ∈ ',' :: tObjChars, x ≠ '`' := by decide
      exact hall c h

theorem fenceSplit?_cons (c : Char) (cs : List Char) :
    fenceSplit? (c :: cs)
      = if c = '`' ∧ cs.take 2 = ['`', '`'] then
          some ((if (cs.drop 2).take 4 = ['j', 's', 'o', 'n']
              then (cs.drop 2).drop 4 else cs.drop 2).dropWhile isJsWs)
        else fenceSplit? cs := by
  rw [fenceSplit?.eq_def]

theorem fenceSplit?_none (cs : List Char) (h : ∀ c ∈ cs, c ≠ '`') :
    fenceSplit? cs = none := by
  induction cs with
  | nil => rw [fenceSplit?.eq_def]
  | cons c cs ih =>
      rw [fenceSplit?_cons]
      rw [if_neg (fun hc => (h c (by simp)) hc.1)]
      exact ih (fun x hx => h x (by simp [hx]))

theorem jsTrim_eq (c d : Char) (l : List Char) (hc : isJsWs c = false)
    (hd : isJsWs d = false) :
    jsTrim (c :: (l ++ [d])) = c :: (l ++ [d]) := by
  unfold jsTrim
  rw [List.dropWhile_cons]
  simp only [hc, Bool.false_eq_true, ite_false]
  rw [show (c :: (l ++ [d])).reverse = d :: (l.reverse ++ [c]) from by simp,
    List.dropWhile_cons]
  simp only [hd, Bool.false_eq_true, ite_false]
  simp

theorem jsTrim_family (objs : List String) :
    jsTrim ((truncInput objs).data) = (truncInput objs).data := by
  rw [show (truncInput objs).data
      = '[' :: ((encJoin objs ++ ',' :: tObjChars.dropLast) ++ ['"']) from by
    show '[' :: (encJoin objs ++ ',' :: tObjChars) = _
    simp [tObjChars]]
  exact jsTrim_eq '[' '"' _ (by decide) (by decide)

theorem filterMap_encKw (objs : List String)
    (hg : ∀ k ∈ objs, k.data.all goodKwChar = true) :
    (objs.map encKw).filterMap (fun m =>
        (jsonParse m).bind (fun o =>
          if jsTruthyOpt (objGet o "keyword") then some o else none))
      = (objs.filter (fun k => k ≠ "")).map kwObj := by
  induction objs with
  | nil => rfl
  | cons k ks ih =>
      simp only [List.map_cons, List.filterMap_cons, List.filter_cons]
      rw [jsonParse_encKw k (hg k (by simp))]
      have hih := ih (fun x hx => hg x (by simp [hx]))
      by_cases hk0 : k = ""
      · subst hk0
        simp only [Option.some_bind]
        rw [show (if jsTruthyOpt (objGet (kwObj "") "keyword")
            then some (kwObj "") else none) = none from by
          simp [kwObj, objGet, jsTruthyOpt, jsTruthy]]
        simp [hih]
      · simp only [Option.some_bind]
        rw [show (if jsTruthyOpt (objGet (kwObj k) "keyword")
            then some (kwObj k) else none) = some (kwObj k) from by
          simp [kwObj, objGet, jsTruthyOpt, jsTruthy, hk0]]
        simp [hih, hk0]

/-- C5 (amended).  For a model output of the exact family
`[{"keyword":"k1"},…,{"keyword":"kn"},{"keyword":"` — an array of
single-field keyword objects truncated inside the string value of a
final object — where every value consists only of printable characters
other than `"`, `\`, `[`, `]` and the backtick, and at least one value
is non-empty, the extractor returns exactly the syntactically complete
objects preceding the truncation point that have a non-empty `keyword`
— none after it — and objects with an empty keyword are dropped without
an error.  Each excluded character is load-bearing, not a convenience:
a `]` in a value derails the non-quote-aware array scan (the
counterexample below), and a backtick in a value can fire the
code-fence regex, handing the direct parser the text after the fake
fence instead of the array (e.g. on
`[{"keyword":"a"},{"keyword":"x```json 5` the extractor returns the
number 5). -/
theorem claim_C5_amended (objs : List String)
    (hg : ∀ k ∈ objs, k.data.all goodKwChar = true)
    (hne : ∃ k ∈ objs, k ≠ "") :
    extractParsedData (truncInput objs)
      = .arr ((objs.filter (fun k => k ≠ "")).map kwObj) := by
  obtain ⟨k0, hk0m, hk0⟩ := hne
  have hobjs : objs ≠ [] := by
    rintro rfl
    simp at hk0m
  unfold extractParsedData
  rw [fenceSplit?_none _ (family_no_backtick objs hg)]
  rw [jsTrim_family objs]
  rw [show String.mk (truncInput objs).data = truncInput objs from rfl]
  simp only [List.cons.injEq]
  rw [jsonParse_truncInput_none objs hg]
  rw [(fbj_truncInput objs hg).1, (fbj_truncInput objs hg).2]
  simp only [List.cons.injEq]
  rw [jsonParse_truncInputClose_none objs hg]
  simp only [List.cons.injEq]
  rw [show (truncInput objs).data ++ [']']
      = '[' :: (encJoin objs ++ ',' :: (tObjChars ++ [']'])) from by
    show ('[' :: (encJoin objs ++ ',' :: tObjChars)) ++ [']'] = _
    simp]
  rw [salvageRun_family objs hg]
  rw [show (objs.map encKw).isEmpty = false from by
    cases objs with
    | nil => exact absurd rfl hobjs
    | cons a l => rfl]
  rw [filterMap_encKw objs hg]
  rw [show ((objs.filter (fun k => k ≠ "")).map kwObj).isEmpty = false from by
    have : k0 ∈ objs.filter (fun k => k ≠ "") := by
      rw [List.mem_filter]
      exact ⟨hk0m, by simpa using hk0⟩
    cases hfe : objs.filter (fun k => k ≠ "") with
    | nil => rw [hfe] at this; simp at this
    | cons a l => simp [hfe]]
  simp

set_option maxRecDepth 16384 in
/-- C5.  The claim is false as stated: on the truncated array
`[{"keyword":"a]b"},{"keyword":"c"},{"tru`, whose two leading objects
are syntactically complete, the non-quote-aware array scan cuts at the
`]` inside the string value `a]b`; the salvage finds no complete object
in that fragment and the extractor returns the raw text instead of the
two complete preceding objects. -/
theorem claim_C5_counterexample :
    extractParsedData bracketInStringText = .str bracketInStringText ∧
      extractParsedData bracketInStringText ≠ .arr bracketInStringObjs ∧
      jsonParse "\x7b\"keyword\":\"a]b\"\x7d"
        = some (.obj [("keyword", .str "a]b")]) ∧
      jsonParse "\x7b\"keyword\":\"c\"\x7d"
        = some (.obj [("keyword", .str "c")]) := by
  refine ⟨by decide, by decide, by decide, by decide⟩

set_option maxRecDepth 16384 in
theorem claim_C5_witness :
    extractParsedData (truncInput ["seo tools", ""])
      = .arr [kwObj "seo tools"] :=
  claim_C5_amended ["seo tools", ""] (by decide) (by decide)
